import Mathlib

/-!
Verification of the Sensei analysis core (symbol extractor, symbol indexer,
dependency mapper, parser dispatch) against its natural-language specification.

The development shallowly embeds the TypeScript sources:
  - src/2_analysis/symbols/symbol-extractor.ts   (SymbolExtractor)
  - src/2_analysis/symbols/symbol-indexer.ts     (SymbolIndexer)
  - src/2_analysis/symbols/dependency-mapper.ts  (DependencyMapper)
  - src/shared/parsers.ts                        (parser classes, ParserRegistry)
  - src/shared/file-utils.ts                     (language-priority constants)

JavaScript strings are modelled through their character lists, JS `Map`s as
association lists preserving insertion order, thrown exceptions as
`Except String`, and third-party parser libraries as oracle functions supplied
as parameters.  Recursive tree walks carry an explicit fuel argument (a plain
upper bound on recursion depth) so that all definitions are executable and
kernel-reducible; theorems about walks are stated for every fuel value.
-/

namespace Sensei

/-! ## JavaScript string primitives -/

/-- ASCII lower-casing of a single character, as `String.prototype.toLowerCase`
acts on the ASCII range (the extension strings handled by the code are ASCII). -/
def lowerChar (c : Char) : Char :=
  if 'A' ≤ c ∧ c ≤ 'Z' then Char.ofNat (c.toNat + 32) else c

/-- Models `s.toLowerCase()` on ASCII strings. -/
def lowerStr (s : String) : String := ⟨s.data.map lowerChar⟩

/-- JS `\s` on the ASCII range: space, tab, newline, carriage return,
vertical tab, form feed. -/
def isJsWs (c : Char) : Bool :=
  c == ' ' || c == '\t' || c == '\n' || c == '\r' || c == '\x0b' || c == '\x0c'

/-- JS regex word character `\w`: `[A-Za-z0-9_]`. -/
def isWordChar (c : Char) : Bool := c.isAlpha || c.isDigit || c == '_'

/-- First character of a JS identifier: `[a-zA-Z_$]`. -/
def isIdentStart (c : Char) : Bool := c.isAlpha || c == '_' || c == '$'

/-- Subsequent character of a JS identifier: `[a-zA-Z0-9_$]`. -/
def isIdentChar (c : Char) : Bool := isIdentStart c || c.isDigit

/-- `isPrefixL p l` holds when the character list `p` is a prefix of `l`. -/
def isPrefixL : List Char → List Char → Bool
  | [], _ => true
  | _ :: _, [] => false
  | p :: ps, c :: cs => p == c && isPrefixL ps cs

/-- Substring containment on character lists; `containsSubL pat l` models
`l.includes(pat)` for JS strings. -/
def containsSubL (pat : List Char) : List Char → Bool
  | [] => isPrefixL pat []
  | c :: cs => isPrefixL pat (c :: cs) || containsSubL pat cs

/-- Models `s.includes(pat)` for JS strings. -/
def strIncludes (s pat : String) : Bool := containsSubL pat.data s.data

/-- Models `s.split(sep)` for a single-character separator: JS returns one
(possibly empty) field per separator-delimited segment, with `"".split(sep)`
giving `[""]`. -/
def splitOnCharL (sep : Char) : List Char → List (List Char)
  | [] => [[]]
  | c :: rest =>
    let r := splitOnCharL sep rest
    if c == sep then [] :: r
    else
      match r with
      | [] => [[c]]
      | h :: t => (c :: h) :: t

/-- Models `s.split(sep).pop()`: the final field of the split (total, since the
split of any string is nonempty). -/
def splitPop (s : String) (sep : Char) : String :=
  ⟨((splitOnCharL sep s.data).getLast?).getD []⟩

/-- Models `s.trim()` (JS trims the `\s` class from both ends). -/
def trimL (l : List Char) : List Char :=
  ((l.dropWhile isJsWs).reverse.dropWhile isJsWs).reverse

/-- Split into maximal `\s`-free words, as `trimmed.split(/\s+/)` produces on an
already trimmed string; the accumulator carries the current word reversed. -/
def wordsAux : List Char → List Char → List (List Char)
  | acc, [] => if acc.isEmpty then [] else [acc.reverse]
  | acc, c :: cs =>
    if isJsWs c then
      if acc.isEmpty then wordsAux [] cs else acc.reverse :: wordsAux [] cs
    else wordsAux (c :: acc) cs

/-- Models `text.trim().split(/\s+/)[0]` guarded by the source's
`words.length > 0` check: the first whitespace-delimited word, if any. -/
def firstWordL (l : List Char) : Option String :=
  match wordsAux [] (trimL l) with
  | [] => none
  | w :: _ => some ⟨w⟩

/-! ## A small JS regex evaluator for the fixed patterns used by the code

The symbol extractor's fallback and the dependency mapper use a handful of
fixed regexes.  We implement exactly those shapes: an ordered alternation of
literal keywords followed by `\s+` and an identifier capture, the
quote-delimited import shape, and word-boundary search.  Match objects carry
the JS `match.index`, the length of `match[0]`, and the first capture. -/

/-- Result of one regex match: JS `match.index`, `match[0].length`, and the
first capture group. -/
structure RMatch where
  index : Nat
  len : Nat
  capture : String
  deriving DecidableEq

/-- Drop a literal keyword prefix, returning the rest on success. -/
def dropLitPrefix : List Char → List Char → Option (List Char)
  | [], l => some l
  | _ :: _, [] => none
  | k :: ks, c :: cs => if k == c then dropLitPrefix ks cs else none

/-- Match `(?:kw1|kw2|…)\s+([a-zA-Z_$][a-zA-Z0-9_$]*)` anchored at the head of
`l`, trying the keyword alternatives in order exactly as the JS engine does
(backtracking into the alternation when the continuation fails).  `\s+` may be
taken greedily because no whitespace character can start the identifier.
Returns the length of `match[0]` and the identifier capture. -/
def kwIdentAt (kws : List (List Char)) (l : List Char) : Option (Nat × String) :=
  kws.findSome? fun kw =>
    match dropLitPrefix kw l with
    | none => none
    | some r1 =>
      let nws := (r1.takeWhile isJsWs).length
      if nws = 0 then none
      else
        match r1.drop nws with
        | [] => none
        | c :: cs =>
          if isIdentStart c then
            let more := cs.takeWhile isIdentChar
            some (kw.length + nws + 1 + more.length, ⟨c :: more⟩)
          else none

/-- Quote characters accepted by the import pattern (`['"]`). -/
def isQuote (c : Char) : Bool := c == '\'' || c == '"'

/-- Match `(?:kw1|kw2|…)\s+['"]([^'"]+)['"]` anchored at the head of `l`,
with the same ordered-alternation semantics as `kwIdentAt`. -/
def kwQuotedAt (kws : List (List Char)) (l : List Char) : Option (Nat × String) :=
  kws.findSome? fun kw =>
    match dropLitPrefix kw l with
    | none => none
    | some r1 =>
      let nws := (r1.takeWhile isJsWs).length
      if nws = 0 then none
      else
        match r1.drop nws with
        | [] => none
        | q :: cs =>
          if isQuote q then
            let body := cs.takeWhile (fun c => !isQuote c)
            if body.isEmpty then none
            else
              match cs.drop body.length with
              | [] => none
              | q2 :: _ =>
                if isQuote q2 then
                  some (kw.length + nws + 1 + body.length + 1, ⟨body⟩)
                else none
          else none

/-- One pass of `while ((match = pattern.exec(line)) !== null)` over a line:
scan left to right, and after a match at index `i` of length `len` resume at
`i + len` (every pattern here has positive match length).  The fuel is the
remaining number of scan steps; `scanAll` supplies the line length, which
suffices since every step consumes at least one character. -/
def scanPattern (tryf : List Char → Option (Nat × String)) :
    Nat → Nat → List Char → List RMatch
  | 0, _, _ => []
  | _ + 1, _, [] => []
  | fuel + 1, pos, c :: rest =>
    match tryf (c :: rest) with
    | some (len, cap) =>
      ⟨pos, len, cap⟩ :: scanPattern tryf fuel (pos + len) ((c :: rest).drop len)
    | none => scanPattern tryf fuel (pos + 1) rest

/-- All matches of a pattern on one line, in order. -/
def scanAll (tryf : List Char → Option (Nat × String)) (l : List Char) : List RMatch :=
  scanPattern tryf l.length 0 l

/-! ## Data model (src/shared/types.ts)

`SymbolInfo` from the shared types.  The `declaration` field (an untyped copy
of the producing AST node) and the `references` field (always the empty array
at extraction time, to be populated later) are not carried in the model; no
verified claim observes them.  `type` and `scope` are the literal strings the
code stores. -/

structure SymbolInfo where
  name : String
  type : String
  scope : String
  lineStart : Nat
  lineEnd : Nat
  columnStart : Nat
  columnEnd : Nat
  signature : Option String
  docstring : Option String
  isExported : Bool
  isImported : Bool
  deriving DecidableEq

/-- JS truthiness of an optional string (`undefined` and `""` are falsy). -/
def oTruthy : Option String → Bool
  | none => false
  | some s => s ≠ ""

/-- JS `Map.set` on an association list: overwrite in place (keeping the
key's original iteration position), else append. -/
def mapSet {α : Type} [DecidableEq α] {β : Type} :
    List (α × β) → α → β → List (α × β)
  | [], k, v => [(k, v)]
  | (k', v') :: rest, k, v =>
    if k' = k then (k, v) :: rest else (k', v') :: mapSet rest k v

/-- `fileInfo` of a processed file; only the field the extractor reads. -/
structure FileInfo where
  isReadable : Bool
  deriving DecidableEq

/-- The slice of `ProcessedFile` consumed by the analysis stage: path,
extension, readability, directory flag, and the optional preloaded content. -/
structure ProcessedFile where
  path : String
  extension : String
  fileInfo : FileInfo
  isDirectory : Bool
  content : Option String
  deriving DecidableEq

/-! ## Symbol indexer (src/2_analysis/symbols/symbol-indexer.ts)

JS `Map`s are modelled as association lists in key-insertion order; each
bucket holds its symbols in insertion order, matching `addToIndex`'s
push-on-existing-key behaviour. -/

namespace SymbolIndexer

/-- `addToIndex(index, key, symbol)`: push onto the existing bucket for `key`,
or append a fresh singleton bucket (a JS `Map.set` on a new key appends it in
iteration order). -/
def addToIndex {K : Type} [DecidableEq K] :
    List (K × List SymbolInfo) → K → SymbolInfo → List (K × List SymbolInfo)
  | [], k, s => [(k, [s])]
  | (k', l) :: rest, k, s =>
    if k' = k then (k', l ++ [s]) :: rest else (k', l) :: addToIndex rest k s

/-- `index.get(key) || []`: bucket lookup, empty when the key is absent. -/
def mapGet {K : Type} [DecidableEq K] :
    List (K × List SymbolInfo) → K → List SymbolInfo
  | [], _ => []
  | (k', l) :: rest, k => if k' = k then l else mapGet rest k

/-- The indexes of `SymbolIndex` touched by the verified claims
(`byDependencies`/`byDependents` are never written by `buildIndex`, and
`lastUpdated` is a wall-clock timestamp outside the model). -/
structure SymbolIndex where
  byName : List (String × List SymbolInfo)
  byType : List (String × List SymbolInfo)
  byFile : List (String × List SymbolInfo)
  byScope : List (String × List SymbolInfo)
  byExported : List (Bool × List SymbolInfo)
  byImported : List (Bool × List SymbolInfo)
  bySignature : List (String × List SymbolInfo)
  totalSymbols : Nat
  fileCount : Nat

/-- `createEmptyIndex()`. -/
def createEmptyIndex : SymbolIndex :=
  { byName := [], byType := [], byFile := [], byScope := []
    byExported := [], byImported := [], bySignature := []
    totalSymbols := 0, fileCount := 0 }

/-- The body of `buildIndex`'s inner loop for one symbol of `filePath`:
add it to every primary and secondary index (`bySignature` only when
`symbol.signature` is truthy) and bump the count. -/
def processSymbol (idx : SymbolIndex) (filePath : String) (s : SymbolInfo) :
    SymbolIndex :=
  { byName := addToIndex idx.byName s.name s
    byType := addToIndex idx.byType s.type s
    byFile := addToIndex idx.byFile filePath s
    byScope := addToIndex idx.byScope s.scope s
    byExported := addToIndex idx.byExported s.isExported s
    byImported := addToIndex idx.byImported s.isImported s
    bySignature :=
      if oTruthy s.signature then
        addToIndex idx.bySignature (s.signature.getD "") s
      else idx.bySignature
    totalSymbols := idx.totalSymbols + 1
    fileCount := idx.fileCount }

/-- `buildIndex(symbolMap)`: reset to the empty index, then process every
symbol of every file in map order (the run-scoped `symbol_i` ids recorded in
the private `symbolIdMap` are not observed by any claim). -/
def buildIndex (symbolMap : List (String × List SymbolInfo)) : SymbolIndex :=
  let idx := symbolMap.foldl
    (fun idx e => e.2.foldl (fun idx s => processSymbol idx e.1 s) idx)
    createEmptyIndex
  { idx with fileCount := symbolMap.length }

/-- `findSymbol(name)`. -/
def findSymbol (idx : SymbolIndex) (name : String) : List SymbolInfo :=
  mapGet idx.byName name

/-- `findSymbolsByType(type)`. -/
def findSymbolsByType (idx : SymbolIndex) (type : String) : List SymbolInfo :=
  mapGet idx.byType type

/-- `findSymbolsInFile(filePath)`. -/
def findSymbolsInFile (idx : SymbolIndex) (filePath : String) : List SymbolInfo :=
  mapGet idx.byFile filePath

/-- `findSymbolsInScope(scope)`. -/
def findSymbolsInScope (idx : SymbolIndex) (scope : String) : List SymbolInfo :=
  mapGet idx.byScope scope

/-- `findSymbolsBySignature(signature)`. -/
def findSymbolsBySignature (idx : SymbolIndex) (signature : String) : List SymbolInfo :=
  mapGet idx.bySignature signature

/-- `getAllSymbols()`: concatenate the `byName` buckets in key-insertion
order. -/
def getAllSymbols (idx : SymbolIndex) : List SymbolInfo :=
  (idx.byName.map Prod.snd).flatten

/-- The `criteria` object of `findSymbolsByCriteria`.  A JS property that is
present but `undefined` behaves exactly like an absent one on every path the
function takes (the truthiness and `!== undefined` tests), so `none` models
both. -/
structure Criteria where
  name : Option String
  type : Option String
  filePath : Option String
  scope : Option String
  exported : Option Bool
  imported : Option Bool
  signature : Option String

/-- The all-absent criteria object (`Object.keys(criteria).length === 0`). -/
def Criteria.isEmpty (c : Criteria) : Bool :=
  c.name = none ∧ c.type = none ∧ c.filePath = none ∧ c.scope = none ∧
    c.exported = none ∧ c.imported = none ∧ c.signature = none

/-- The primary `if`/`else if` chain of `findSymbolsByCriteria`: the seed
result list picked from the first specified criterion. -/
def primarySeed (idx : SymbolIndex) (c : Criteria) : List SymbolInfo :=
  if oTruthy c.name then findSymbol idx (c.name.getD "")
  else if oTruthy c.type then findSymbolsByType idx (c.type.getD "")
  else if oTruthy c.filePath then findSymbolsInFile idx (c.filePath.getD "")
  else if oTruthy c.scope then findSymbolsInScope idx (c.scope.getD "")
  else if c.exported ≠ none then mapGet idx.byExported (c.exported.getD false)
  else if c.imported ≠ none then mapGet idx.byImported (c.imported.getD false)
  else if oTruthy c.signature then findSymbolsBySignature idx (c.signature.getD "")
  else getAllSymbols idx

/-- The `criteria.name` secondary filter, skipped when the first result
already carries the requested name. -/
def nameGuard (c : Criteria) (results : List SymbolInfo) : List SymbolInfo :=
  if oTruthy c.name ∧ c.name ≠ (results.head?).map SymbolInfo.name then
    results.filter (fun s => s.name = c.name.getD "")
  else results

/-- The `criteria.type` secondary filter, with the analogous skip. -/
def typeGuard (c : Criteria) (results : List SymbolInfo) : List SymbolInfo :=
  if oTruthy c.type ∧ c.type ≠ (results.head?).map SymbolInfo.type then
    results.filter (fun s => s.type = c.type.getD "")
  else results

/-- The `criteria.filePath` secondary filter: as written in the source, it
compares symbol NAMES against the requested file path. -/
def filePathGuard (c : Criteria) (results : List SymbolInfo) : List SymbolInfo :=
  if oTruthy c.filePath ∧ c.filePath ≠ (results.head?).map SymbolInfo.name then
    results.filter (fun s => s.name = c.filePath.getD "")
  else results

/-- The `criteria.scope` secondary filter, with the skip. -/
def scopeGuard (c : Criteria) (results : List SymbolInfo) : List SymbolInfo :=
  if oTruthy c.scope ∧ c.scope ≠ (results.head?).map SymbolInfo.scope then
    results.filter (fun s => s.scope = c.scope.getD "")
  else results

/-- The unguarded `criteria.exported` filter. -/
def exportedFilter (c : Criteria) (results : List SymbolInfo) : List SymbolInfo :=
  match c.exported with
  | some b => results.filter (fun s => s.isExported = b)
  | none => results

/-- The unguarded `criteria.imported` filter. -/
def importedFilter (c : Criteria) (results : List SymbolInfo) : List SymbolInfo :=
  match c.imported with
  | some b => results.filter (fun s => s.isImported = b)
  | none => results

/-- The `criteria.signature` secondary filter, with the skip. -/
def signatureGuard (c : Criteria) (results : List SymbolInfo) : List SymbolInfo :=
  if oTruthy c.signature ∧
      c.signature ≠ (results.head?).bind SymbolInfo.signature then
    results.filter (fun s => s.signature = c.signature)
  else results

/-- `findSymbolsByCriteria(criteria)`, translated clause by clause: the
primary `if`/`else if` chain choosing the seed result list, followed by the
seven secondary filters in source order.  The source's quirks are preserved:
the equality-guarded filters compare against `results[0]` and are skipped
when the first element already satisfies the criterion, and the `filePath`
secondary filter compares `s.name` with `criteria.filePath`. -/
def findSymbolsByCriteria (idx : SymbolIndex) (c : Criteria) : List SymbolInfo :=
  if c.isEmpty then getAllSymbols idx
  else
    signatureGuard c (importedFilter c (exportedFilter c (scopeGuard c
      (filePathGuard c (typeGuard c (nameGuard c (primarySeed idx c)))))))

end SymbolIndexer

/-! ## AST shapes

Three concrete tree representations reach the symbol extractor: tree-sitter
nodes (`type`/`text`/`children`/row-column positions), Babel (ESTree) nodes
(`type`/`loc`/`body` and friends), and TypeScript compiler-API nodes (numeric
`kind`, `forEachChild`, offset-based positions).  Each is modelled with the
fields the extractor reads; the access path each field models is noted. -/

/-- A tree-sitter point: `{row, column}` (0-based). -/
structure TreePos where
  row : Nat
  column : Nat
  deriving DecidableEq

/-- A tree-sitter-shaped node.  `name`, `identifier` and `value` are the
optional string-valued properties probed by `extractSymbolName`'s
`nameFields` loop (absent on genuine tree-sitter nodes but read through the
untyped interface); `parentType` models `node.parent?.type`. -/
inductive TreeNode where
  | mk (type : String) (text : Option String)
       (name identifier value : Option String)
       (parentType : Option String)
       (startPosition endPosition : Option TreePos)
       (children : List TreeNode)

def TreeNode.type : TreeNode → String
  | .mk t _ _ _ _ _ _ _ _ => t

def TreeNode.text : TreeNode → Option String
  | .mk _ tx _ _ _ _ _ _ _ => tx

def TreeNode.name : TreeNode → Option String
  | .mk _ _ n _ _ _ _ _ _ => n

def TreeNode.identifier : TreeNode → Option String
  | .mk _ _ _ i _ _ _ _ _ => i

def TreeNode.value : TreeNode → Option String
  | .mk _ _ _ _ v _ _ _ _ => v

def TreeNode.parentType : TreeNode → Option String
  | .mk _ _ _ _ _ p _ _ _ => p

def TreeNode.startPosition : TreeNode → Option TreePos
  | .mk _ _ _ _ _ _ s _ _ => s

def TreeNode.endPosition : TreeNode → Option TreePos
  | .mk _ _ _ _ _ _ _ e _ => e

def TreeNode.children : TreeNode → List TreeNode
  | .mk _ _ _ _ _ _ _ _ cs => cs

/-- A Babel `loc`: `loc.start.line/column` and `loc.end.line/column`
(1-based lines, 0-based columns). -/
structure BLoc where
  startLine : Nat
  startColumn : Nat
  endLine : Nat
  endColumn : Nat
  deriving DecidableEq

/-- A Babel type reference as read by `getTypeAnnotationText`: the outer
option is the presence of `typeAnnotation.typeName`, the inner its `name`. -/
structure BTypeAnn where
  type : String
  typeName : Option (Option String)
  deriving DecidableEq

/-- A Babel comment as read by `extractBabelDocumentation`. -/
structure BComment where
  type : String
  value : String
  deriving DecidableEq

/-- A Babel (ESTree) node with the properties the extractor reads:
`name`/`value` for the generic name probe, `idName` for `node.id?.name`,
`keyName` for `node.key?.name`, `exportedFlag` for `node.exported === true`,
`argumentName` for `node.argument?.name` (rest parameters), and
`returnTypeAnn` for `node.returnType?.typeAnnotation`. -/
inductive BabelNode where
  | mk (type : String) (loc : Option BLoc)
       (name value idName keyName : Option String)
       (exportedFlag : Bool)
       (exportKind importKind : Option String)
       (body declarations params properties elements : Option (List BabelNode))
       (consequent alternate test left right : Option BabelNode)
       (argumentName : Option String)
       (returnTypeAnn : Option BTypeAnn)
       (leadingComments : Option (List BComment))

def BabelNode.type : BabelNode → String
  | .mk t _ _ _ _ _ _ _ _ _ _ _ _ _ _ _ _ _ _ _ _ _ => t

def BabelNode.loc : BabelNode → Option BLoc
  | .mk _ l _ _ _ _ _ _ _ _ _ _ _ _ _ _ _ _ _ _ _ _ => l

def BabelNode.name : BabelNode → Option String
  | .mk _ _ n _ _ _ _ _ _ _ _ _ _ _ _ _ _ _ _ _ _ _ => n

def BabelNode.value : BabelNode → Option String
  | .mk _ _ _ v _ _ _ _ _ _ _ _ _ _ _ _ _ _ _ _ _ _ => v

def BabelNode.idName : BabelNode → Option String
  | .mk _ _ _ _ i _ _ _ _ _ _ _ _ _ _ _ _ _ _ _ _ _ => i

def BabelNode.keyName : BabelNode → Option String
  | .mk _ _ _ _ _ k _ _ _ _ _ _ _ _ _ _ _ _ _ _ _ _ => k

def BabelNode.exportedFlag : BabelNode → Bool
  | .mk _ _ _ _ _ _ e _ _ _ _ _ _ _ _ _ _ _ _ _ _ _ => e

def BabelNode.exportKind : BabelNode → Option String
  | .mk _ _ _ _ _ _ _ ek _ _ _ _ _ _ _ _ _ _ _ _ _ _ => ek

def BabelNode.importKind : BabelNode → Option String
  | .mk _ _ _ _ _ _ _ _ ik _ _ _ _ _ _ _ _ _ _ _ _ _ => ik

def BabelNode.body : BabelNode → Option (List BabelNode)
  | .mk _ _ _ _ _ _ _ _ _ b _ _ _ _ _ _ _ _ _ _ _ _ => b

def BabelNode.declarations : BabelNode → Option (List BabelNode)
  | .mk _ _ _ _ _ _ _ _ _ _ d _ _ _ _ _ _ _ _ _ _ _ => d

def BabelNode.params : BabelNode → Option (List BabelNode)
  | .mk _ _ _ _ _ _ _ _ _ _ _ p _ _ _ _ _ _ _ _ _ _ => p

def BabelNode.properties : BabelNode → Option (List BabelNode)
  | .mk _ _ _ _ _ _ _ _ _ _ _ _ pr _ _ _ _ _ _ _ _ _ => pr

def BabelNode.elements : BabelNode → Option (List BabelNode)
  | .mk _ _ _ _ _ _ _ _ _ _ _ _ _ el _ _ _ _ _ _ _ _ => el

def BabelNode.consequent : BabelNode → Option BabelNode
  | .mk _ _ _ _ _ _ _ _ _ _ _ _ _ _ c _ _ _ _ _ _ _ => c

def BabelNode.alternate : BabelNode → Option BabelNode
  | .mk _ _ _ _ _ _ _ _ _ _ _ _ _ _ _ a _ _ _ _ _ _ => a

def BabelNode.test : BabelNode → Option BabelNode
  | .mk _ _ _ _ _ _ _ _ _ _ _ _ _ _ _ _ t _ _ _ _ _ => t

def BabelNode.left : BabelNode → Option BabelNode
  | .mk _ _ _ _ _ _ _ _ _ _ _ _ _ _ _ _ _ l _ _ _ _ => l

def BabelNode.right : BabelNode → Option BabelNode
  | .mk _ _ _ _ _ _ _ _ _ _ _ _ _ _ _ _ _ _ r _ _ _ => r

def BabelNode.argumentName : BabelNode → Option String
  | .mk _ _ _ _ _ _ _ _ _ _ _ _ _ _ _ _ _ _ _ an _ _ => an

def BabelNode.returnTypeAnn : BabelNode → Option BTypeAnn
  | .mk _ _ _ _ _ _ _ _ _ _ _ _ _ _ _ _ _ _ _ _ rt _ => rt

def BabelNode.leadingComments : BabelNode → Option (List BComment)
  | .mk _ _ _ _ _ _ _ _ _ _ _ _ _ _ _ _ _ _ _ _ _ lc => lc

/-- A TypeScript compiler-API node with the accessors the extractor uses.
`nameText` models `node.name?.text`; `declListFirstName` collapses the
source's `node.declarationList && node.declarationList.declarations` chain to
the resolved `declarations[0].name.text` (the chain falls through identically
whenever any link is missing); `declarationsFirstName` likewise for
`node.declarations`.  `hasSourceFile` models `node.getSourceFile()` returning
a source file; `startPos`/`endPos` are `getStart()`/`getEnd()` character
offsets; `params` models `node.parameters` as each parameter's
`name?.text`; `leadingTrivia` is the text between `getFullStart()` and
`getStart()` when `getLeadingTriviaWidth() > 0`; `children` enumerates
`forEachChild`, and `statements` models `node.statements`. -/
inductive TsNode where
  | mk (kind : Nat)
       (nameText declListFirstName declarationsFirstName : Option String)
       (hasSourceFile : Bool)
       (startPos endPos : Nat)
       (modifierKinds : Option (List Nat))
       (params : Option (List (Option String)))
       (typeTypeName : Option String)
       (typeKind : Option Nat)
       (leadingTrivia : Option String)
       (children : List TsNode)
       (statements : Option (List TsNode))

def TsNode.kind : TsNode → Nat
  | .mk k _ _ _ _ _ _ _ _ _ _ _ _ _ => k

def TsNode.nameText : TsNode → Option String
  | .mk _ n _ _ _ _ _ _ _ _ _ _ _ _ => n

def TsNode.declListFirstName : TsNode → Option String
  | .mk _ _ d _ _ _ _ _ _ _ _ _ _ _ => d

def TsNode.declarationsFirstName : TsNode → Option String
  | .mk _ _ _ d _ _ _ _ _ _ _ _ _ _ => d

def TsNode.hasSourceFile : TsNode → Bool
  | .mk _ _ _ _ h _ _ _ _ _ _ _ _ _ => h

def TsNode.startPos : TsNode → Nat
  | .mk _ _ _ _ _ s _ _ _ _ _ _ _ _ => s

def TsNode.endPos : TsNode → Nat
  | .mk _ _ _ _ _ _ e _ _ _ _ _ _ _ => e

def TsNode.modifierKinds : TsNode → Option (List Nat)
  | .mk _ _ _ _ _ _ _ m _ _ _ _ _ _ => m

def TsNode.params : TsNode → Option (List (Option String))
  | .mk _ _ _ _ _ _ _ _ p _ _ _ _ _ => p

def TsNode.typeTypeName : TsNode → Option String
  | .mk _ _ _ _ _ _ _ _ _ t _ _ _ _ => t

def TsNode.typeKind : TsNode → Option Nat
  | .mk _ _ _ _ _ _ _ _ _ _ tk _ _ _ => tk

def TsNode.leadingTrivia : TsNode → Option String
  | .mk _ _ _ _ _ _ _ _ _ _ _ lt _ _ => lt

def TsNode.children : TsNode → List TsNode
  | .mk _ _ _ _ _ _ _ _ _ _ _ _ cs _ => cs

def TsNode.statements : TsNode → Option (List TsNode)
  | .mk _ _ _ _ _ _ _ _ _ _ _ _ _ st => st

/-! ## Parser dispatch (src/shared/parsers.ts) -/

/-- A JavaScript value as it flows through `ParserResult.ast`/`data`: besides
`undefined`, `null`, strings and opaque result objects (tagged by the parser
that built them), an AST value can be a tree-sitter tree (exposing
`rootNode`), a TypeScript source file (exposing `statements`/`getChildCount`),
a Babel file node, or a pending promise — the value an `async` parse function
returns, whose eventual resolution or rejection is carried inside. -/
inductive JsVal where
  | undef
  | jsNull
  | str (s : String)
  | obj (tag : String)
  | promiseVal (p : Except String JsVal)
  | tree (rootNode : TreeNode)
  | tsSource (root : TsNode) (lineChar : Nat → Nat × Nat)
  | babel (root : BabelNode)

/-- `ParserResult` from src/shared/parsers.ts (the `language` field is unused
by the analysis stage). -/
structure ParserResult where
  success : Bool
  data : Option JsVal
  error : Option String
  ast : Option JsVal

/-- `BaseParser.safeParse(parseFn)`: run the computation, returning
success-with-result or failure-with-message; a thrown value is modelled by
the `Except` error branch. -/
def safeParse (c : Except String JsVal) : ParserResult :=
  match c with
  | .ok v => { success := true, data := some v, error := none, ast := some v }
  | .error e => { success := false, data := none, error := some e, ast := none }

/-- One constructor per parser class registered by `registerDefaultParsers`,
in registration order. -/
inductive ParserKind where
  | json | yaml | toml | ini | csv
  | markdown | html | xml | yamlFrontMatter
  | javascript | typescript | python | java | go | rust | cpp | c | csharp
  | php | ruby | swift | kotlin | scala | groovy
  | css | sql | shell | dockerfile
  | log | config | binary | image | video | audio | font | archive | document
  | text | universalText
  deriving DecidableEq

/-- `canParse(extension)` of each parser class, with the literal extension
lists of the source; the universal text parser accepts everything. -/
def canParse (k : ParserKind) (ext : String) : Bool :=
  match k with
  | .json => ["json", "jsonc", "json5"].contains (lowerStr ext)
  | .yaml => ["yaml", "yml"].contains (lowerStr ext)
  | .toml => ["toml"].contains (lowerStr ext)
  | .ini => ["ini", "cfg", "conf", "properties"].contains (lowerStr ext)
  | .csv => ["csv", "tsv"].contains (lowerStr ext)
  | .markdown =>
    ["md", "markdown", "mdown", "mkd", "mkdn", "mdtxt", "mdtext"].contains (lowerStr ext)
  | .html => ["html", "htm", "xhtml", "shtml", "mhtml"].contains (lowerStr ext)
  | .xml =>
    ["xml", "svg", "rss", "atom", "xhtml", "xsd", "xsl", "xslt"].contains (lowerStr ext)
  | .yamlFrontMatter => ["md", "markdown", "html", "htm"].contains (lowerStr ext)
  | .javascript => ["js", "jsx", "mjs", "cjs", "es6", "es"].contains (lowerStr ext)
  | .typescript => ["ts", "tsx", "d.ts", "mts", "cts"].contains (lowerStr ext)
  | .python => ["py", "pyi", "pyw", "pyc", "pyo", "pyd"].contains (lowerStr ext)
  | .java => ["java", "class", "jar"].contains (lowerStr ext)
  | .go => ["go"].contains (lowerStr ext)
  | .rust => ["rs", "rlib"].contains (lowerStr ext)
  | .cpp =>
    ["cpp", "cc", "cxx", "c++", "hpp", "hxx", "h++", "h", "c"].contains (lowerStr ext)
  | .c => ["c", "h"].contains (lowerStr ext)
  | .csharp => ["cs", "csx"].contains (lowerStr ext)
  | .php =>
    ["php", "phtml", "php3", "php4", "php5", "pht", "phps"].contains (lowerStr ext)
  | .ruby =>
    ["rb", "rbw", "rake", "gemspec", "ru", "rbx", "rjs", "irb"].contains (lowerStr ext)
  | .swift => ["swift"].contains (lowerStr ext)
  | .kotlin => ["kt", "kts", "ktm"].contains (lowerStr ext)
  | .scala => ["scala", "sc", "sbt"].contains (lowerStr ext)
  | .groovy => ["groovy", "gvy", "gy", "gsh", "gradle"].contains (lowerStr ext)
  | .css => ["css", "scss", "sass", "less", "styl", "stylus"].contains (lowerStr ext)
  | .sql => ["sql", "mysql", "pgsql", "sqlite"].contains (lowerStr ext)
  | .shell =>
    ["sh", "bash", "zsh", "fish", "csh", "tcsh", "ksh", "dash"].contains (lowerStr ext)
  | .dockerfile => ["dockerfile", "docker"].contains (lowerStr ext)
  | .log => ["log", "logs", "out", "err", "debug", "trace"].contains (lowerStr ext)
  | .config =>
    ["conf", "config", "cfg", "ini", "properties", "env", "env.local",
      "env.production", "env.development"].contains (lowerStr ext)
  | .binary =>
    ["bin", "exe", "dll", "so", "dylib", "a", "lib", "obj", "o", "elf", "dmg",
      "iso", "img", "zip", "tar", "gz", "bz2", "7z", "rar"].contains (lowerStr ext)
  | .image =>
    ["jpg", "jpeg", "png", "gif", "bmp", "tiff", "tif", "svg", "webp", "ico",
      "psd", "ai", "eps", "raw", "cr2", "nef", "orf", "sr2"].contains (lowerStr ext)
  | .video =>
    ["mp4", "avi", "mkv", "mov", "wmv", "flv", "webm", "m4v", "3gp", "ogv",
      "mpg", "mpeg", "m2v"].contains (lowerStr ext)
  | .audio =>
    ["mp3", "wav", "flac", "aac", "ogg", "wma", "m4a", "opus", "aiff",
      "au"].contains (lowerStr ext)
  | .font => ["ttf", "otf", "woff", "woff2", "eot", "svg"].contains (lowerStr ext)
  | .archive =>
    ["zip", "tar", "gz", "bz2", "7z", "rar", "xz", "lz", "lzma", "z", "cab",
      "deb", "rpm", "dmg", "iso"].contains (lowerStr ext)
  | .document =>
    ["pdf", "doc", "docx", "xls", "xlsx", "ppt", "pptx", "odt", "ods", "odp",
      "rtf", "txt"].contains (lowerStr ext)
  | .text =>
    ["txt", "text", "readme", "changelog", "license", "authors",
      "contributors", "todo", "notes", "memo"].contains (lowerStr ext)
  | .universalText => true

/-- The `parserInstances` array of `registerDefaultParsers`, in order. -/
def parserInstances : List ParserKind :=
  [.json, .yaml, .toml, .ini, .csv,
   .markdown, .html, .xml, .yamlFrontMatter,
   .javascript, .typescript, .python, .java, .go, .rust, .cpp, .c, .csharp,
   .php, .ruby, .swift, .kotlin, .scala, .groovy,
   .css, .sql, .shell, .dockerfile,
   .log, .config, .binary, .image, .video, .audio, .font, .archive, .document,
   .text, .universalText]

/-- The `commonExtensions` list of `ParserRegistry.getSupportedExtensions`,
verbatim. -/
def commonExtensions : List String :=
  ["json", "jsonc", "json5", "yaml", "yml", "toml", "ini", "cfg", "conf",
   "properties", "csv", "tsv",
   "md", "markdown", "mdown", "mkd", "mkdn", "mdtxt", "mdtext", "html", "htm",
   "xhtml", "shtml", "mhtml", "xml", "svg", "rss", "atom", "xsd", "xsl", "xslt",
   "js", "jsx", "mjs", "cjs", "es6", "es", "ts", "tsx", "d.ts", "mts", "cts",
   "py", "pyi", "pyw", "pyc", "pyo", "pyd", "java", "class", "jar", "go",
   "rs", "rlib", "cpp", "cc", "cxx", "c++", "hpp", "hxx", "h++", "h", "c",
   "cs", "csx", "php", "phtml", "php3", "php4", "php5", "pht", "phps",
   "rb", "rbw", "rake", "gemspec", "ru", "rbx", "rjs", "irb",
   "swift", "kt", "kts", "ktm", "scala", "sc", "sbt",
   "groovy", "gvy", "gy", "gsh", "gradle",
   "css", "scss", "sass", "less", "styl", "stylus",
   "sql", "mysql", "pgsql", "sqlite",
   "sh", "bash", "zsh", "fish", "csh", "tcsh", "ksh", "dash",
   "dockerfile", "docker",
   "txt", "log", "text", "rtf", "rst", "asciidoc", "adoc"]

/-- `registerDefaultParsers`: for each parser instance in order, claim every
`commonExtensions` entry its `canParse` accepts that no earlier parser has
claimed. -/
def registryParsers : List (String × ParserKind) :=
  parserInstances.foldl
    (fun m k =>
      (commonExtensions.filter (canParse k)).foldl
        (fun m ext =>
          if (m.find? (fun e => e.1 = ext)).isSome then m else m ++ [(ext, k)])
        m)
    []

/-- `ParserRegistry.getParser(extension)`. -/
def getParser (ext : String) : Option ParserKind :=
  (registryParsers.find? (fun e => e.1 = lowerStr ext)).map Prod.snd

/-- The third-party parse calls each parser class wraps, as oracles.  A
function models each library entry point; returning `Except.error` models the
library throwing.  `treeSitter lang content` stands for the whole body of a
tree-sitter parser's `async` parse function (lazy module load, parser
construction and `parser.parse`), whose failure becomes the rejection of the
promise it returns. -/
structure ParserOracles where
  json : String → Except String JsVal
  yaml : String → Except String JsVal
  toml : String → Except String JsVal
  ini : String → Except String JsVal
  csv : String → Except String JsVal
  markdownIt : String → Except String JsVal
  htmlLib : String → Except String JsVal
  xmlLib : String → Except String JsVal
  yamlFrontMatter : String → Except String JsVal
  babelParse : String → Except String JsVal
  tsCreateSourceFile : String → Except String JsVal
  cssTree : String → Except String JsVal
  treeSitter : String → String → Except String JsVal

/-- The `parse(content)` method of each parser class.

* Sync library-backed parsers wrap the library call in `safeParse`.
* The fifteen tree-sitter parsers pass an `async` function to `safeParse`;
  calling an `async` function never throws synchronously, so `safeParse`
  always succeeds with the pending promise as `data`/`ast` and a rejection
  stays inside the promise.
* `sql`, `shell`, `dockerfile`, `log` and `config` build their result objects
  with pure string operations inside `safeParse` (no throw site); the object
  is opaque here.
* The media/document/text/universal parsers return a literal success record
  (no `error` property). -/
def parseAs (o : ParserOracles) (k : ParserKind) (content : String) : ParserResult :=
  match k with
  | .json => safeParse (o.json content)
  | .yaml => safeParse (o.yaml content)
  | .toml => safeParse (o.toml content)
  | .ini => safeParse (o.ini content)
  | .csv => safeParse (o.csv content)
  | .markdown => safeParse (o.markdownIt content)
  | .html => safeParse (o.htmlLib content)
  | .xml => safeParse (o.xmlLib content)
  | .yamlFrontMatter => safeParse (o.yamlFrontMatter content)
  | .javascript => safeParse (o.babelParse content)
  | .typescript => safeParse (o.tsCreateSourceFile content)
  | .python => safeParse (.ok (.promiseVal (o.treeSitter "python" content)))
  | .java => safeParse (.ok (.promiseVal (o.treeSitter "java" content)))
  | .go => safeParse (.ok (.promiseVal (o.treeSitter "go" content)))
  | .rust => safeParse (.ok (.promiseVal (o.treeSitter "rust" content)))
  | .cpp => safeParse (.ok (.promiseVal (o.treeSitter "cpp" content)))
  | .c => safeParse (.ok (.promiseVal (o.treeSitter "c" content)))
  | .csharp => safeParse (.ok (.promiseVal (o.treeSitter "csharp" content)))
  | .php => safeParse (.ok (.promiseVal (o.treeSitter "php" content)))
  | .ruby => safeParse (.ok (.promiseVal (o.treeSitter "ruby" content)))
  | .swift => safeParse (.ok (.promiseVal (o.treeSitter "swift" content)))
  | .kotlin => safeParse (.ok (.promiseVal (o.treeSitter "kotlin" content)))
  | .scala => safeParse (.ok (.promiseVal (o.treeSitter "scala" content)))
  | .groovy => safeParse (.ok (.promiseVal (o.treeSitter "groovy" content)))
  | .css => safeParse (o.cssTree content)
  | .sql => safeParse (.ok (.obj "sql"))
  | .shell => safeParse (.ok (.obj "shell"))
  | .dockerfile => safeParse (.ok (.obj "dockerfile"))
  | .log => safeParse (.ok (.obj "log"))
  | .config => safeParse (.ok (.obj "config"))
  | .binary =>
    { success := true, data := some .jsNull, error := none, ast := some (.obj "binary") }
  | .image =>
    { success := true, data := some .jsNull, error := none, ast := some (.obj "image") }
  | .video =>
    { success := true, data := some .jsNull, error := none, ast := some (.obj "video") }
  | .audio =>
    { success := true, data := some .jsNull, error := none, ast := some (.obj "audio") }
  | .font =>
    { success := true, data := some .jsNull, error := none, ast := some (.obj "font") }
  | .archive =>
    { success := true, data := some .jsNull, error := none, ast := some (.obj "archive") }
  | .document =>
    { success := true, data := some (.str content), error := none, ast := some (.obj "document") }
  | .text =>
    { success := true, data := some (.str content), error := none, ast := some (.obj "text") }
  | .universalText =>
    { success := true, data := some (.str content), error := none, ast := some (.obj "text") }

/-- `ParserRegistry.parseFile(content, extension)`: dispatch through the
registry, with a fresh universal text parser as the defensive fallback. -/
def parseFile (o : ParserOracles) (content ext : String) : ParserResult :=
  match getParser ext with
  | none => parseAs o .universalText content
  | some k => parseAs o k content

/-! ## Language priority (src/shared/file-utils.ts) -/

/-- `CORE_EXTENSIONS`: the flattened `CORE_LANGUAGES` table. -/
def CORE_EXTENSIONS : List String :=
  ["js", "jsx", "mjs", "cjs", "ts", "tsx", "mts", "cts",
   "html", "htm", "xhtml", "css", "scss", "sass", "less",
   "py", "pyw", "pyi", "json", "jsonc", "yaml", "yml",
   "env", "env.local", "env.production", "env.development"]

/-- `isCoreLanguage(extension)` (an exact, case-sensitive membership test). -/
def isCoreLanguage (ext : String) : Bool := CORE_EXTENSIONS.contains ext

/-! ## Symbol extractor (src/2_analysis/symbols/symbol-extractor.ts) -/

namespace SymbolExtractor

/-- Extraction quality tier: `'core' | 'secondary'`. -/
inductive Quality where
  | core
  | secondary
  deriving DecidableEq

/-- JS `a || b` on optional strings (an empty string is falsy). -/
def jsOrStr (a b : Option String) : Option String := if oTruthy a then a else b

/-- Template-literal stringification of a possibly-undefined string. -/
def jsToStr (a : Option String) : String := a.getD "undefined"

/-- `b?.includes(pat)` folded to a boolean. -/
def optIncludes (b : Option String) (pat : String) : Bool :=
  match b with
  | some s => strIncludes s pat
  | none => false

/-- `extractSymbolName(node, nodeType)`: probe the `nameFields`
(`name`, `identifier`, `value`, `text`) for a truthy string, then the first
`identifier`/`property_identifier` child (returning `child.text || child.name`
even when that is undefined), then the first whitespace-delimited word of
`node.text`.  (The final fallback is unreachable for any node whose `text` is
a nonempty string, since the field probe already returned it.) -/
def extractSymbolName (node : TreeNode) : Option String :=
  if oTruthy node.name then node.name
  else if oTruthy node.identifier then node.identifier
  else if oTruthy node.value then node.value
  else if oTruthy node.text then node.text
  else
    match node.children.find?
        (fun c => c.type = "identifier" ∨ c.type = "property_identifier") with
    | some c => jsOrStr c.text c.name
    | none =>
      match node.text with
      | some t => if t ≠ "" then firstWordL t.data else none
      | none => none

/-- `extractScope(node, file)`: a substring probe on the node's type string
(the `file` argument of the source is never read). -/
def extractScope (nodeType : String) : String :=
  if strIncludes nodeType "class" then "class"
  else if strIncludes nodeType "function" then "function"
  else if strIncludes nodeType "module" then "module"
  else "global"

/-- `isExported(node, nodeType)`:
`nodeType.includes('export') || node.parent?.type?.includes('export') ||
node.text?.includes('export')` (an undefined link makes that disjunct
falsy). -/
def isExportedGeneric (nodeType : String) (parentType text : Option String) : Bool :=
  strIncludes nodeType "export" || optIncludes parentType "export" ||
    optIncludes text "export"

/-- `isImported(node, nodeType)`, the import twin of `isExported`. -/
def isImportedGeneric (nodeType : String) (parentType text : Option String) : Bool :=
  strIncludes nodeType "import" || optIncludes parentType "import" ||
    optIncludes text "import"

/-- `extractParameters(node)`: children whose type mentions `parameter` or
`argument`, each contributing `child.text || child.name || 'param'`. -/
def extractParameters (node : TreeNode) : List String :=
  (node.children.filter
    (fun c => strIncludes c.type "parameter" || strIncludes c.type "argument")).map
    (fun c => jsToStr' (jsOrStr c.text c.name))
where
  /-- `x || 'param'` for the collapsed `text`/`name` chain. -/
  jsToStr' (a : Option String) : String := if oTruthy a then a.getD "" else "param"

/-- `extractReturnType(node)`: the `text || name` of the first child whose
type mentions `type` or `return`. -/
def extractReturnType (node : TreeNode) : Option String :=
  match node.children.find?
      (fun c => strIncludes c.type "type" || strIncludes c.type "return") with
  | some c => jsOrStr c.text c.name
  | none => none

/-- `extractSignature(node, nodeType)` for the tree-sitter shape: only
`function`/`method` nodes get one; the template stringifies an undefined
`node.text` as the string `undefined`, and the return-type suffix is added
only when truthy. -/
def extractSignature (node : TreeNode) (nodeType : String) : Option String :=
  if ¬ (strIncludes nodeType "function" || strIncludes nodeType "method") then none
  else
    let params := extractParameters node
    let ret := extractReturnType node
    some (jsToStr node.text ++ "(" ++ String.intercalate ", " params ++ ")" ++
      (if oTruthy ret then ": " ++ ret.getD "" else ""))

/-- `extractDocumentation(node, nodeType)`: the `text` of the first child
whose type mentions `comment` or `docstring`. -/
def extractDocumentation (node : TreeNode) : Option String :=
  (node.children.find?
    (fun c => strIncludes c.type "comment" || strIncludes c.type "docstring")).bind
    TreeNode.text

/-- The `symbolPatterns` table of `extractSymbolFromNode`, in object-entry
order; matching is by substring (`nodeType.includes(pattern)`). -/
def treeSymbolPatterns : List (String × List String) :=
  [("function",
    ["function_declaration", "method_definition", "function_definition", "arrow_function"]),
   ("class", ["class_declaration", "class_definition", "interface_declaration"]),
   ("variable",
    ["variable_declaration", "const_declaration", "let_declaration", "var_declaration"]),
   ("import", ["import_statement", "import_declaration"]),
   ("export", ["export_statement", "export_declaration"]),
   ("type", ["type_alias_declaration", "interface_declaration", "type_definition"]),
   ("constant", ["const_declaration", "constant_declaration"]),
   ("enum", ["enum_declaration", "enum_definition"])]

/-- Resolve a symbol category from a pattern table, defaulting to
`variable`. -/
def symbolTypeFrom (table : List (String × List String)) (probe : String → Bool) :
    String :=
  match table.find? (fun e => e.2.any probe) with
  | some e => e.1
  | none => "variable"

/-- `extractSymbolFromNode(node, file, quality)` (tree-sitter shape).
Positions mirror the source's falsy-defaulting reads:
`startPosition?.row + 1 || 1`, `endPosition?.row + 1 || lineStart`,
`startPosition?.column || 0` and `endPosition?.column || columnStart` (note the
last one falls back to `columnStart` when the end column is `0`). -/
def extractSymbolFromNode (node : TreeNode) (quality : Quality) : Option SymbolInfo :=
  let nodeType := node.type
  let symbolType := symbolTypeFrom treeSymbolPatterns (fun pat => strIncludes nodeType pat)
  match extractSymbolName node with
  | none => none
  | some nm =>
    if nm = "" then none
    else
      let lineStart := match node.startPosition with
        | some p => p.row + 1
        | none => 1
      let lineEnd := match node.endPosition with
        | some p => p.row + 1
        | none => lineStart
      let columnStart := match node.startPosition with
        | some p => p.column
        | none => 0
      let columnEnd := match node.endPosition with
        | some p => if p.column = 0 then columnStart else p.column
        | none => columnStart
      some
        { name := nm
          type := symbolType
          scope := extractScope nodeType
          lineStart := lineStart
          lineEnd := lineEnd
          columnStart := columnStart
          columnEnd := columnEnd
          signature :=
            if quality = .core then extractSignature node nodeType else none
          docstring :=
            if quality = .core then extractDocumentation node else none
          isExported := isExportedGeneric nodeType node.parentType node.text
          isImported := isImportedGeneric nodeType node.parentType node.text }

/-- `traverseAST(node, file, symbols, quality)`: emit the node's symbol, then
recurse over `node.children`.  The fuel bounds recursion depth; every theorem
about the walk holds for every fuel value. -/
def traverseAST (quality : Quality) : Nat → TreeNode → List SymbolInfo
  | 0, _ => []
  | fuel + 1, node =>
    (match extractSymbolFromNode node quality with
      | some s => [s]
      | none => []) ++
    (node.children.map (traverseAST quality fuel)).flatten

/-- The `symbolPatterns` table of `extractSymbolFromBabelNode`; matching is by
exact node-type membership. -/
def babelSymbolPatterns : List (String × List String) :=
  [("function",
    ["FunctionDeclaration", "FunctionExpression", "ArrowFunctionExpression",
     "MethodDefinition"]),
   ("class",
    ["ClassDeclaration", "ClassExpression", "TSInterfaceDeclaration",
     "TSTypeAliasDeclaration"]),
   ("variable", ["VariableDeclaration", "VariableDeclarator"]),
   ("import",
    ["ImportDeclaration", "ImportDefaultSpecifier", "ImportSpecifier",
     "ImportNamespaceSpecifier"]),
   ("export",
    ["ExportNamedDeclaration", "ExportDefaultDeclaration", "ExportAllDeclaration"]),
   ("type", ["TSTypeAliasDeclaration", "TSInterfaceDeclaration", "TSTypeParameter"]),
   ("constant", ["VariableDeclaration"]),
   ("enum", ["TSEnumDeclaration"])]

/-- `extractSymbolName` applied to an ESTree node: of the probed
`nameFields`, only `name` and `value` exist on Babel nodes (`identifier`,
`text` and `children` are absent properties), so the probe reduces to these
two and the remaining fallbacks yield nothing. -/
def extractSymbolNameBabel (node : BabelNode) : Option String :=
  if oTruthy node.name then node.name
  else if oTruthy node.value then node.value
  else none

/-- `isBabelImported(node, nodeType)`. -/
def isBabelImported (node : BabelNode) (nodeType : String) : Bool :=
  strIncludes nodeType "Import" || node.importKind = some "value" ||
    node.importKind = some "type"

/-- `getTypeAnnotationText(typeNode)`; the final clause is
`typeNode.type || 'unknown'`. -/
def getTypeAnnotationText (ta : BTypeAnn) : Option String :=
  if ta.type = "TSTypeReference" ∧ ta.typeName.isSome then ta.typeName.getD none
  else if ta.type = "TSStringKeyword" then some "string"
  else if ta.type = "TSNumberKeyword" then some "number"
  else if ta.type = "TSBooleanKeyword" then some "boolean"
  else if ta.type = "TSVoidKeyword" then some "void"
  else if ta.type = "TSAnyKeyword" then some "any"
  else some (if ta.type ≠ "" then ta.type else "unknown")

/-- `extractBabelReturnType(node)`: the annotation text of
`node.returnType?.typeAnnotation`, when present. -/
def extractBabelReturnType (node : BabelNode) : Option String :=
  match node.returnTypeAnn with
  | some ta => getTypeAnnotationText ta
  | none => none

/-- `extractBabelParameters(node)`: `param.name` when truthy, else the rest
spelling for `RestElement`s (whose `argument.name` is stringified as a
template literal). -/
def extractBabelParameters (node : BabelNode) : List String :=
  match node.params with
  | none => []
  | some ps =>
    ps.filterMap fun p =>
      if oTruthy p.name then some (p.name.getD "")
      else if p.type = "RestElement" then some ("..." ++ jsToStr p.argumentName)
      else none

/-- `extractBabelSignature(node, nodeType)`. -/
def extractBabelSignature (node : BabelNode) (nodeType : String) : Option String :=
  if ¬ (strIncludes nodeType "Function" || strIncludes nodeType "Method") then none
  else
    let params := extractBabelParameters node
    let ret := extractBabelReturnType node
    some ((if oTruthy node.idName then node.idName.getD "" else "function") ++
      "(" ++ String.intercalate ", " params ++ ")" ++
      (if oTruthy ret then ": " ++ ret.getD "" else ""))

/-- `extractBabelDocumentation(node, nodeType)`: the first leading
`CommentBlock` whose value contains a `*`. -/
def extractBabelDocumentation (node : BabelNode) : Option String :=
  match node.leadingComments with
  | some cs =>
    (cs.find? (fun c => c.type = "CommentBlock" ∧ strIncludes c.value "*")).map
      BComment.value
  | none => none

/-- `extractSymbolFromBabelNode(node, file, quality)`.  Name, scope and the
export flag go through the shared generic helpers exactly as in the source
(`extractSymbolName`, `extractScope`, `isExported`); on an ESTree node the
generic export probe sees no `parent`/`text` property.  Positions mirror
`loc?.start?.line || 1`, `loc?.end?.line || lineStart`,
`loc?.start?.column || 0` and `loc?.end?.column || columnStart`. -/
def extractSymbolFromBabelNode (node : BabelNode) (quality : Quality) :
    Option SymbolInfo :=
  let nodeType := node.type
  let symbolType := symbolTypeFrom babelSymbolPatterns (fun pat => nodeType = pat)
  match extractSymbolNameBabel node with
  | none => none
  | some nm =>
    if nm = "" then none
    else
      let lineStart := match node.loc with
        | some L => if L.startLine = 0 then 1 else L.startLine
        | none => 1
      let lineEnd := match node.loc with
        | some L => if L.endLine = 0 then lineStart else L.endLine
        | none => lineStart
      let columnStart := match node.loc with
        | some L => L.startColumn
        | none => 0
      let columnEnd := match node.loc with
        | some L => if L.endColumn = 0 then columnStart else L.endColumn
        | none => columnStart
      some
        { name := nm
          type := symbolType
          scope := extractScope nodeType
          lineStart := lineStart
          lineEnd := lineEnd
          columnStart := columnStart
          columnEnd := columnEnd
          signature :=
            if quality = .core then extractBabelSignature node nodeType else none
          docstring :=
            if quality = .core then extractBabelDocumentation node else none
          isExported := isExportedGeneric nodeType none none
          isImported := isBabelImported node nodeType }

/-- `traverseBabelAST`: the node's symbol, the `body` array, then the fixed
`childProperties` list (`declarations`, `params`, `properties`, `elements` as
arrays; `consequent`, `alternate`, `test`, `left`, `right` as single nodes),
in source order. -/
def traverseBabelAST (quality : Quality) : Nat → BabelNode → List SymbolInfo
  | 0, _ => []
  | fuel + 1, node =>
    let one := fun (o : Option BabelNode) =>
      match o with
      | some c => traverseBabelAST quality fuel c
      | none => []
    let many := fun (o : Option (List BabelNode)) =>
      match o with
      | some cs => (cs.map (traverseBabelAST quality fuel)).flatten
      | none => []
    (match extractSymbolFromBabelNode node quality with
      | some s => [s]
      | none => []) ++
    many node.body ++
    many node.declarations ++ many node.params ++ many node.properties ++
    many node.elements ++ one node.consequent ++ one node.alternate ++
    one node.test ++ one node.left ++ one node.right

/-- The `symbolKinds` table of `extractSymbolFromTypeScriptNode`, with the
source's literal numeric kinds; matching is by exact kind membership. -/
def tsSymbolKinds : List (String × List Nat) :=
  [("function", [258, 259, 260]),
   ("class", [260, 261, 262]),
   ("variable", [257, 258]),
   ("import", [268, 269, 270]),
   ("export", [271, 272, 273]),
   ("type", [261, 262, 263]),
   ("constant", [258]),
   ("enum", [263])]

/-- `extractTypeScriptSymbolName(node, nodeKind)`: `node.name?.text` when
truthy, else the first declaration of `node.declarationList`, else the first
element of `node.declarations` (whose `name.text` the source returns without
a further truthiness check — a falsy result is rejected identically by the
caller). -/
def extractTypeScriptSymbolName (node : TsNode) : Option String :=
  if oTruthy node.nameText then node.nameText
  else if oTruthy node.declListFirstName then node.declListFirstName
  else node.declarationsFirstName

/-- `extractTypeScriptScope(node, file)`. -/
def extractTypeScriptScope (node : TsNode) : String :=
  if node.kind = 260 then "class"
  else if node.kind = 258 ∨ node.kind = 259 then "function"
  else if node.kind = 261 then "interface"
  else "global"

/-- `isTypeScriptExported(node, nodeKind)`: some modifier has kind 93
(the source's literal for the export keyword). -/
def isTypeScriptExported (node : TsNode) : Bool :=
  match node.modifierKinds with
  | some ms => ms.contains 93
  | none => false

/-- `isTypeScriptImported(node, nodeKind)`. -/
def isTypeScriptImported (nodeKind : Nat) : Bool :=
  nodeKind = 268 || nodeKind = 269 || nodeKind = 270

/-- `extractTypeScriptParameters(node)`: each parameter's `name.text` when
present and truthy. -/
def extractTypeScriptParameters (node : TsNode) : List String :=
  match node.params with
  | none => []
  | some ps => ps.filterMap (fun p => if oTruthy p then p else none)

/-- `extractTypeScriptReturnType(node)`: `node.type?.typeName?.text` first,
else the keyword-kind table (guarded by the truthiness of `node.type.kind`),
defaulting to `unknown`. -/
def extractTypeScriptReturnType (node : TsNode) : Option String :=
  if node.typeTypeName.isSome then node.typeTypeName
  else
    match node.typeKind with
    | some k =>
      if k = 0 then none
      else
        some
          (if k = 134 then "string"
            else if k = 135 then "number"
            else if k = 136 then "boolean"
            else if k = 137 then "void"
            else if k = 138 then "any"
            else if k = 139 then "unknown"
            else if k = 140 then "never"
            else if k = 141 then "object"
            else "unknown")
    | none => none

/-- `extractTypeScriptSignature(node, nodeKind)` for kinds 258/259. -/
def extractTypeScriptSignature (node : TsNode) : Option String :=
  if ¬ (node.kind = 258 ∨ node.kind = 259) then none
  else
    let nm := if oTruthy node.nameText then node.nameText.getD "" else "function"
    let params := extractTypeScriptParameters node
    let ret := extractTypeScriptReturnType node
    some (nm ++ "(" ++ String.intercalate ", " params ++ ")" ++
      (if oTruthy ret then ": " ++ ret.getD "" else ""))

/-- The first `/** … */` block of a trivia text, as the source's
`/\/\*\*[\s\S]*?\*\//` match: the body extends lazily to the first `*/`. -/
def jsdocBody : List Char → Option (List Char)
  | [] => none
  | '*' :: '/' :: _ => some ['*', '/']
  | c :: rest => (jsdocBody rest).map (c :: ·)

/-- Scan for the first position where a JSDoc block starts. -/
def jsdocFind : List Char → Option String
  | [] => none
  | c :: rest =>
    match c :: rest with
    | '/' :: '*' :: '*' :: body =>
      match jsdocBody body with
      | some b => some ⟨'/' :: '*' :: '*' :: b⟩
      | none => jsdocFind rest
    | _ => jsdocFind rest

/-- `extractTypeScriptDocumentation(node, nodeKind)`: when leading trivia
exists and the node has a source file, the first JSDoc block of the trivia
text. -/
def extractTypeScriptDocumentation (node : TsNode) : Option String :=
  match (if node.hasSourceFile then node.leadingTrivia else none) with
  | some t => jsdocFind t.data
  | none => none

/-- `extractSymbolFromTypeScriptNode(node, file, quality)`.  `lineChar` is the
owning source file's `getLineAndCharacterOfPosition` (0-based line and
character); the source adds 1 to lines and uses characters as columns,
defaulting to line 1 / column 0 when the node has no source file. -/
def extractSymbolFromTypeScriptNode (lineChar : Nat → Nat × Nat) (node : TsNode)
    (quality : Quality) : Option SymbolInfo :=
  let nodeKind := node.kind
  let symbolType :=
    match tsSymbolKinds.find? (fun e => e.2.contains nodeKind) with
    | some e => e.1
    | none => "variable"
  match extractTypeScriptSymbolName node with
  | none => none
  | some nm =>
    if nm = "" then none
    else
      let lineStart :=
        if node.hasSourceFile then (lineChar node.startPos).1 + 1 else 1
      let lineEnd :=
        if node.hasSourceFile then (lineChar node.endPos).1 + 1 else lineStart
      let columnStart :=
        if node.hasSourceFile then (lineChar node.startPos).2 else 0
      let columnEnd :=
        if node.hasSourceFile then (lineChar node.endPos).2 else columnStart
      some
        { name := nm
          type := symbolType
          scope := extractTypeScriptScope node
          lineStart := lineStart
          lineEnd := lineEnd
          columnStart := columnStart
          columnEnd := columnEnd
          signature :=
            if quality = .core then extractTypeScriptSignature node else none
          docstring :=
            if quality = .core then extractTypeScriptDocumentation node else none
          isExported := isTypeScriptExported node
          isImported := isTypeScriptImported nodeKind }

/-- `traverseTypeScriptAST`: the node's symbol, the `forEachChild`
enumeration, then `node.statements` when it is an array (so statement nodes
are visited twice from a source file, as in the source). -/
def traverseTypeScriptAST (lineChar : Nat → Nat × Nat) (quality : Quality) :
    Nat → TsNode → List SymbolInfo
  | 0, _ => []
  | fuel + 1, node =>
    (match extractSymbolFromTypeScriptNode lineChar node quality with
      | some s => [s]
      | none => []) ++
    (node.children.map (traverseTypeScriptAST lineChar quality fuel)).flatten ++
    (match node.statements with
      | some sts => (sts.map (traverseTypeScriptAST lineChar quality fuel)).flatten
      | none => [])

/-- JS truthiness of a `ParserResult.ast` value (`undefined`, `null` and the
empty string are the falsy cases that can appear there). -/
def astTruthy : Option JsVal → Bool
  | none => false
  | some .undef => false
  | some .jsNull => false
  | some (.str s) => s ≠ ""
  | some _ => true

/-- `extractSymbolsFromAST(file, ast, quality)`: requires a truthy
`ast.rootNode`, then walks it. -/
def extractSymbolsFromAST (fuel : Nat) (ast : JsVal) (quality : Quality) :
    List SymbolInfo :=
  match ast with
  | .tree root => traverseAST quality fuel root
  | _ => []

/-- `extractSymbolsFromBabelAST(file, ast, quality)`: requires a truthy
`ast.body`, then walks the root. -/
def extractSymbolsFromBabelAST (fuel : Nat) (ast : JsVal) (quality : Quality) :
    List SymbolInfo :=
  match ast with
  | .babel root => if root.body.isSome then traverseBabelAST quality fuel root else []
  | _ => []

/-- `extractSymbolsFromTypeScriptAST(file, ast, quality)`. -/
def extractSymbolsFromTypeScriptAST (fuel : Nat) (ast : JsVal) (quality : Quality) :
    List SymbolInfo :=
  match ast with
  | .tsSource root lineChar => traverseTypeScriptAST lineChar quality fuel root
  | _ => []

/-- The regex patterns of `extractBasicSymbols`, in object-entry order. -/
def basicPatterns : List (String × (List Char → Option (Nat × String))) :=
  [("function", kwIdentAt ["function".data, "def".data, "fn".data, "func".data]),
   ("class", kwIdentAt ["class".data, "interface".data, "struct".data, "enum".data]),
   ("variable", kwIdentAt ["let".data, "const".data, "var".data, "val".data, "final".data]),
   ("import", kwQuotedAt ["import".data, "require".data, "from".data]),
   ("export", kwIdentAt ["export".data, "module.exports".data])]

/-- `extractBasicSymbols(file, content)`: a line-oriented scan with the five
fixed patterns, emitting one global-scope symbol per match with the JS match
index/length as columns and per-line `includes` checks for the
export/import flags. -/
def extractBasicSymbols (content : String) : List SymbolInfo :=
  ((splitOnCharL '\n' content.data).enum.map fun e =>
    (basicPatterns.map fun pat =>
      (scanAll pat.2 e.2).map fun m =>
        { name := m.capture
          type := pat.1
          scope := "global"
          lineStart := e.1 + 1
          lineEnd := e.1 + 1
          columnStart := m.index
          columnEnd := m.index + m.len
          signature := none
          docstring := none
          isExported := containsSubL "export".data e.2
          isImported := containsSubL "import".data e.2 }).flatten).flatten

/-- `extractCoreSymbols(file, content)`: dispatch to the registered parser;
fall back to the regex baseline when there is none or the parse outcome is
unusable; otherwise select the walker by the structural shape checks
(`ast.rootNode`, then `ast.statements || ast.getChildCount`, else the Babel
walker).  A parse in this model never throws, so the source's
catch-and-fall-back branch is not reachable. -/
def extractCoreSymbols (o : ParserOracles) (fuel : Nat) (file : ProcessedFile)
    (content : String) : List SymbolInfo :=
  match getParser (lowerStr file.extension) with
  | none => extractBasicSymbols content
  | some k =>
    let pr := parseAs o k content
    if pr.success = false ∨ ¬ astTruthy pr.ast then extractBasicSymbols content
    else
      match pr.ast with
      | some (.tree root) => traverseAST .core fuel root
      | some (.tsSource root lineChar) => traverseTypeScriptAST lineChar .core fuel root
      | some (.babel root) =>
        if root.body.isSome then traverseBabelAST .core fuel root else []
      | _ => []

/-- `extractSecondarySymbols(file, content)`: as the core path, but only the
tree-sitter walker is attempted on a successful parse (any other shape yields
no symbols), at secondary quality. -/
def extractSecondarySymbols (o : ParserOracles) (fuel : Nat) (file : ProcessedFile)
    (content : String) : List SymbolInfo :=
  match getParser (lowerStr file.extension) with
  | none => extractBasicSymbols content
  | some k =>
    let pr := parseAs o k content
    if pr.success = false ∨ ¬ astTruthy pr.ast then extractBasicSymbols content
    else
      match pr.ast with
      | some ast => extractSymbolsFromAST fuel ast .secondary
      | none => []

/-- `extractFromFile(file)`: unreadable files and directories contribute no
symbols; content comes from `file.content` when truthy, else from disk (a
failed read throws `Failed to read file: …`); then the extension's language
priority selects the core or secondary path.  `disk` models `readFile`. -/
def extractFromFileE (o : ParserOracles) (fuel : Nat)
    (disk : String → Except String String) (file : ProcessedFile) :
    Except String (List SymbolInfo) :=
  if ¬ file.fileInfo.isReadable ∨ file.isDirectory then .ok []
  else
    let contentR : Except String String :=
      match file.content with
      | some c => if c ≠ "" then .ok c else disk file.path
      | none => disk file.path
    match contentR with
    | .error e => .error ("Failed to read file: " ++ e)
    | .ok content =>
      let ext := lowerStr file.extension
      if isCoreLanguage ext then .ok (extractCoreSymbols o fuel file content)
      else .ok (extractSecondarySymbols o fuel file content)

/-- An accumulated `{file, error}` entry. -/
structure ExtractError where
  file : String
  error : String
  deriving DecidableEq

/-- The per-file task results, in input order — exactly what `Promise.all`
hands back regardless of completion order. -/
def extractResults (o : ParserOracles) (fuel : Nat)
    (disk : String → Except String String) (files : List ProcessedFile) :
    List (String × Except String (List SymbolInfo)) :=
  files.map fun f => (f.path, extractFromFileE o fuel disk f)

/-- `extractSymbols(files)`, symbol-map part: `Promise.all` returns the task
results in input order and `results.forEach` merges them into the map, a
failed task contributing an empty list.  The completion schedule therefore
never influences this map. -/
def extractSymbolsMap (o : ParserOracles) (fuel : Nat)
    (disk : String → Except String String) (files : List ProcessedFile) :
    List (String × List SymbolInfo) :=
  (extractResults o fuel disk files).foldl
    (fun m e =>
      mapSet m e.1
        (match e.2 with
          | .ok syms => syms
          | .error _ => []))
    []

/-- `extractSymbols(files)`, error-list part: each failing task pushes its
`{file, error}` entry when it completes, so the error list is ordered by the
completion schedule `sched` (a permutation of the task indices). -/
def extractSymbolsErrors (o : ParserOracles) (fuel : Nat)
    (disk : String → Except String String) (files : List ProcessedFile)
    (sched : List Nat) : List ExtractError :=
  sched.filterMap fun i =>
    match (extractResults o fuel disk files).get? i with
    | some (p, .error e) => some ⟨p, e⟩
    | _ => none

/-- The fan-out's completion events under a completion schedule `sched`: the
task of index `j` settles with its `(path, outcome)` when its turn comes. -/
def completionEvents (o : ParserOracles) (fuel : Nat)
    (disk : String → Except String String) (files : List ProcessedFile)
    (sched : List Nat) :
    List (Nat × (String × Except String (List SymbolInfo))) :=
  sched.filterMap fun j =>
    ((extractResults o fuel disk files).get? j).map fun r => (j, r)

/-- `Promise.all`'s result array reassembled from the completion events: slot
`i` receives the settlement of task `i`, whatever order the tasks completed
in. -/
def settledResults (o : ParserOracles) (fuel : Nat)
    (disk : String → Except String String) (files : List ProcessedFile)
    (sched : List Nat) : List (String × Except String (List SymbolInfo)) :=
  (List.range files.length).filterMap fun i =>
    ((completionEvents o fuel disk files sched).find? fun ev => ev.1 = i).map
      Prod.snd

/-- The symbol map as merged from a scheduled run: `results.forEach` over the
reassembled `Promise.all` array. -/
def extractSymbolsMapSched (o : ParserOracles) (fuel : Nat)
    (disk : String → Except String String) (files : List ProcessedFile)
    (sched : List Nat) : List (String × List SymbolInfo) :=
  (settledResults o fuel disk files sched).foldl
    (fun m e =>
      mapSet m e.1
        (match e.2 with
          | .ok syms => syms
          | .error _ => []))
    []

end SymbolExtractor

/-! ## Dependency mapper (src/2_analysis/symbols/dependency-mapper.ts) -/

namespace DependencyMapper

/-- An edge of `DependencyGraph` (src/shared/types.ts). -/
structure Edge where
  «from» : String
  «to» : String
  type : String
  weight : Nat
  deriving DecidableEq

/-- `DependencyGraph`: `nodes` is the `symbolId → filePath` map in insertion
order, `edges` the edge array. -/
structure DependencyGraph where
  nodes : List (String × String)
  edges : List Edge

/-- One entry of a `findSymbolDependencies` result. -/
structure DepCand where
  symbolId : String
  type : String
  weight : Nat
  deriving DecidableEq

/-- `content.match(new RegExp('\\b' + name + '\\b'))` being non-null, for a
name made of word characters (every name the analysis feeds in is an
identifier; for other names the constructed regex would reinterpret its
metacharacters).  `prev` carries the character before the scan position for
the left boundary test. -/
def wbScan (pat : List Char) : Option Char → List Char → Bool
  | _, [] => false
  | prev, c :: rest =>
    ((match prev with
        | none => true
        | some p => !isWordChar p) &&
      isPrefixL pat (c :: rest) &&
      (match (c :: rest).drop pat.length with
        | [] => true
        | a :: _ => !isWordChar a)) ||
    wbScan pat (some c) rest

/-- Whether `\bname\b` matches somewhere in `content`. -/
def wordBoundedMatch (content name : String) : Bool :=
  wbScan name.data none content.data

/-- `findDependenciesWithBasicAnalysis(symbol, content, symbolMap)`: when the
symbol's own name occurs word-bounded in `content`, emit one `usage`
candidate for every other symbol whose name differs from and contains this
symbol's name. -/
def findDependenciesWithBasicAnalysis (symbol : SymbolInfo) (content : String)
    (symbolMap : List (String × List SymbolInfo)) : List DepCand :=
  if wordBoundedMatch content symbol.name then
    (symbolMap.map fun e =>
      e.2.filterMap fun other =>
        if other.name ≠ symbol.name ∧ strIncludes other.name symbol.name then
          some ⟨e.1 ++ ":" ++ other.name, "usage", 1⟩
        else none).flatten
  else []

/-- `traverseASTForDependencies(node, symbol, symbolMap, dependencies)`: at
every node whose truthy text contains the symbol's name, emit a `usage`
candidate for every same-named symbol other than the one being processed.
The JS `otherSymbol !== symbol` is object identity; since every symbol object
occurs exactly once in the map, it is modelled by the position pair
`selfId = (filePath, index)`. -/
def traverseASTForDependencies (symbol : SymbolInfo) (selfId : String × Nat)
    (symbolMap : List (String × List SymbolInfo)) :
    Nat → TreeNode → List DepCand
  | 0, _ => []
  | fuel + 1, node =>
    (if (match node.text with
          | some t => if t ≠ "" then strIncludes t symbol.name else false
          | none => false) then
      (symbolMap.map fun e =>
        e.2.enum.filterMap fun ie =>
          if ie.2.name = symbol.name ∧ (e.1, ie.1) ≠ selfId then
            some ⟨e.1 ++ ":" ++ ie.2.name, "usage", 1⟩
          else none).flatten
     else []) ++
    (node.children.map (traverseASTForDependencies symbol selfId symbolMap fuel)).flatten

/-- `findDependenciesWithTreeSitter(symbol, content, symbolMap)`: look a
parser up under the extension of the SYMBOL NAME (`symbol.name.split('.')
.pop()`, as written in the source), falling back to the basic analysis when
none exists or the parse outcome is unusable; on a tree-sitter tree, walk it
for dependencies (`analyzeASTForDependencies` yields nothing when the ast has
no `rootNode`).  Parses in this model never throw, so the catch-and-fall-back
branch is not reachable. -/
def findDependenciesWithTreeSitter (o : ParserOracles) (fuel : Nat)
    (symbol : SymbolInfo) (selfId : String × Nat) (content : String)
    (symbolMap : List (String × List SymbolInfo)) : List DepCand :=
  let ext := lowerStr (splitPop symbol.name '.')
  match getParser ext with
  | none => findDependenciesWithBasicAnalysis symbol content symbolMap
  | some k =>
    let pr := parseAs o k content
    if pr.success = false ∨ ¬ SymbolExtractor.astTruthy pr.ast then
      findDependenciesWithBasicAnalysis symbol content symbolMap
    else
      match pr.ast with
      | some (.tree root) => traverseASTForDependencies symbol selfId symbolMap fuel root
      | _ => []

/-- `findSymbolDependencies(symbol, filePath, symbolMap)`: read the declaring
file (a failed read is recorded and yields no dependencies), then pick the
tier by the language priority of the FILE PATH's extension. -/
def findSymbolDependencies (o : ParserOracles) (fuel : Nat)
    (disk : String → Except String String) (symbol : SymbolInfo)
    (selfId : String × Nat) (filePath : String)
    (symbolMap : List (String × List SymbolInfo)) : List DepCand :=
  match disk filePath with
  | .error _ => []
  | .ok content =>
    let ext := lowerStr (splitPop filePath '.')
    if isCoreLanguage ext then
      findDependenciesWithTreeSitter o fuel symbol selfId content symbolMap
    else findDependenciesWithBasicAnalysis symbol content symbolMap

/-- The graph-building loop of `mapDependencies(symbolMap, symbolIndex)`:
register one node per `filePath:name` and append that symbol's dependency
edges (the `symbolIndex` argument of the source is never read). -/
def mapDependenciesGraph (o : ParserOracles) (fuel : Nat)
    (disk : String → Except String String)
    (symbolMap : List (String × List SymbolInfo)) : DependencyGraph :=
  symbolMap.foldl
    (fun g e =>
      e.2.enum.foldl
        (fun (g : DependencyGraph) ie =>
          let symbolId := e.1 ++ ":" ++ ie.2.name
          let deps := findSymbolDependencies o fuel disk ie.2 (e.1, ie.1) e.1 symbolMap
          { nodes := mapSet g.nodes symbolId e.1
            edges := g.edges ++ deps.map fun d => ⟨symbolId, d.symbolId, d.type, d.weight⟩ })
        g)
    ⟨[], []⟩

/-- An upper bound on the `findCycle` recursion depth: every recursive step
inserts a previously unseen node into the visited set, and only node keys and
edge targets can ever be visited. -/
def cycleFuel (g : DependencyGraph) : Nat :=
  g.nodes.length + g.edges.length + 1

/-- One iteration of `findCycle`'s edge loop, parameterised by the recursive
call `rec`: once a cycle has been found the remaining edges are ignored (the
source returned out of the loop); an edge leaving `nodeId` recurses on its
target, keeping the first nonempty cycle and otherwise carrying the updated
state forward. -/
def cycleEdgeStep (rec : String → List String × List String →
      List String × (List String × List String)) (nodeId : String)
    (acc : Option (List String) × (List String × List String)) (e : Edge) :
    Option (List String) × (List String × List String) :=
  match acc.1 with
  | some _ => acc
  | none =>
    if e.«from» = nodeId then
      let fc := rec e.«to» acc.2
      if fc.1 ≠ [] then (some fc.1, fc.2) else (none, fc.2)
    else acc

/-- `findCycle(graph, nodeId, visited, recursionStack)`.  The state is the
pair `(visited, recursionStack)` of the two mutated sets, modelled as
duplicate-free lists; the function returns the cycle list together with the
updated state.  On falling through the edge loop, or on returning a found
cycle, `recursionStack.delete(nodeId)` fires. -/
def findCycle (g : DependencyGraph) :
    Nat → String → List String × List String →
      List String × (List String × List String)
  | 0, _, st => ([], st)
  | fuel + 1, nodeId, st =>
    if nodeId ∈ st.2 then ([nodeId], st)
    else if nodeId ∈ st.1 then ([], st)
    else
      let r := g.edges.foldl (cycleEdgeStep (findCycle g fuel) nodeId)
        (none, (nodeId :: st.1, nodeId :: st.2))
      match r with
      | (some cyc, st') => (nodeId :: cyc, (st'.1, st'.2.erase nodeId))
      | (none, st') => ([], (st'.1, st'.2.erase nodeId))

/-- One iteration of the cycle-detection loop of `analyzeDependencies`: skip
visited roots, otherwise run `findCycle` on the shared state and push a
nonempty result. -/
def detectStep (g : DependencyGraph)
    (acc : List (List String) × (List String × List String)) (nodeId : String) :
    List (List String) × (List String × List String) :=
  if nodeId ∈ acc.2.1 then acc
  else if (findCycle g (cycleFuel g) nodeId acc.2).1 ≠ [] then
    (acc.1 ++ [(findCycle g (cycleFuel g) nodeId acc.2).1],
      (findCycle g (cycleFuel g) nodeId acc.2).2)
  else (acc.1, (findCycle g (cycleFuel g) nodeId acc.2).2)

/-- The cycle-detection loop of `analyzeDependencies`: one shared
visited/recursion-stack state across all roots. -/
def detectCycles (g : DependencyGraph) : List (List String) :=
  ((g.nodes.map Prod.fst).foldl (detectStep g) ([], ([], []))).1

/-- The orphan loop of `analyzeDependencies`: nodes with no outgoing edge. -/
def orphanedOf (g : DependencyGraph) : List String :=
  (g.nodes.map Prod.fst).filter fun n => ¬ g.edges.any fun e => e.«from» = n

/-- `nodeDependencyCount.set(from, (get || 0) + 1)`: bump an association-list
counter in place. -/
def bumpCount : List (String × Nat) → String → List (String × Nat)
  | [], k => [(k, 1)]
  | (k', n) :: rest, k =>
    if k' = k then (k', n + 1) :: rest else (k', n) :: bumpCount rest k

/-- The critical-dependency loop of `analyzeDependencies`: nodes whose
outgoing-edge count exceeds 5. -/
def criticalOf (g : DependencyGraph) : List String :=
  ((g.edges.foldl (fun m e => bumpCount m e.«from») []).filter
    (fun e => 5 < e.2)).map Prod.fst

/-- An upper bound on the `dfsCluster` recursion depth. -/
def clusterFuel (g : DependencyGraph) : Nat :=
  g.nodes.length + 2 * g.edges.length + 1

/-- `dfsCluster(graph, nodeId, visited, cluster)`: mark the node, append it
to the cluster, then follow every edge in both directions.  The state is
`(visited, cluster)`. -/
def dfsCluster (g : DependencyGraph) :
    Nat → String → List String × List String → List String × List String
  | 0, _, st => st
  | fuel + 1, nodeId, st =>
    g.edges.foldl
      (fun (st2 : List String × List String) e =>
        let st3 :=
          if e.«from» = nodeId ∧ e.«to» ∉ st2.1 then dfsCluster g fuel e.«to» st2 else st2
        if e.«to» = nodeId ∧ e.«from» ∉ st3.1 then dfsCluster g fuel e.«from» st3 else st3)
      (nodeId :: st.1, st.2 ++ [nodeId])

/-- `findDependencyClusters(graph)`: connected components (edges read in both
directions) of size greater than one, sharing one visited set. -/
def findDependencyClusters (g : DependencyGraph) : List (List String) :=
  ((g.nodes.map Prod.fst).foldl
    (fun (acc : List (List String) × List String) nodeId =>
      if nodeId ∈ acc.2 then acc
      else
        let st := dfsCluster g (clusterFuel g) nodeId (acc.2, [])
        if 1 < st.2.length then (acc.1 ++ [st.2], st.1) else (acc.1, st.1))
    ([], [])).1

/-- The result record of `analyzeDependencies(graph)`. -/
structure AnalysisParts where
  circularDependencies : List (List String)
  orphanedSymbols : List String
  criticalDependencies : List String
  dependencyClusters : List (String × List String)

/-- `analyzeDependencies(graph)`. -/
def analyzeDependencies (g : DependencyGraph) : AnalysisParts :=
  { circularDependencies := detectCycles g
    orphanedSymbols := orphanedOf g
    criticalDependencies := criticalOf g
    dependencyClusters :=
      (findDependencyClusters g).enum.map fun e =>
        ("cluster_" ++ toString e.1, e.2) }

/-- `DependencyAnalysis` as returned by `mapDependencies`. -/
structure DependencyAnalysis where
  graph : DependencyGraph
  circularDependencies : List (List String)
  orphanedSymbols : List String
  criticalDependencies : List String
  dependencyClusters : List (String × List String)
  totalDependencies : Nat
  circularCount : Nat
  orphanedCount : Nat
  criticalCount : Nat
  clusterCount : Nat

/-- `mapDependencies(symbolMap, symbolIndex)`: build the graph, analyze it,
and return both with the summary statistics. -/
def mapDependencies (o : ParserOracles) (fuel : Nat)
    (disk : String → Except String String)
    (symbolMap : List (String × List SymbolInfo)) : DependencyAnalysis :=
  let graph := mapDependenciesGraph o fuel disk symbolMap
  let a := analyzeDependencies graph
  { graph := graph
    circularDependencies := a.circularDependencies
    orphanedSymbols := a.orphanedSymbols
    criticalDependencies := a.criticalDependencies
    dependencyClusters := a.dependencyClusters
    totalDependencies := graph.edges.length
    circularCount := a.circularDependencies.length
    orphanedCount := a.orphanedSymbols.length
    criticalCount := a.criticalDependencies.length
    clusterCount := a.dependencyClusters.length }

end DependencyMapper

/-! ## Observation helpers and well-formedness predicates -/

/-- Association-list lookup (first match), the observation counterpart of
`mapSet`. -/
def lookupA {α : Type} [DecidableEq α] {β : Type} :
    List (α × β) → α → Option β
  | [], _ => none
  | (k, v) :: rest, k' => if k = k' then some v else lookupA rest k'

/-- The position invariant of a symbol record: the start does not lie after
the end. -/
def symbolPosWF (s : SymbolInfo) : Prop :=
  s.lineStart ≤ s.lineEnd ∧ (s.lineStart = s.lineEnd → s.columnStart ≤ s.columnEnd)

instance (s : SymbolInfo) : Decidable (symbolPosWF s) := by
  unfold symbolPosWF; infer_instance

/-- A tree-sitter node's own positions are well formed: when both endpoints
are present, the start does not lie after the end (row-major order).  This is
what every real parse guarantees. -/
def treeNodeOk (n : TreeNode) : Bool :=
  match n.startPosition, n.endPosition with
  | some p, some q =>
    decide (p.row < q.row ∨ (p.row = q.row ∧ p.column ≤ q.column))
  | _, _ => true

/-- Well-formedness of a tree-sitter tree down to the walk depth. -/
def treeWF : Nat → TreeNode → Bool
  | 0, _ => true
  | fuel + 1, n => treeNodeOk n && n.children.all (treeWF fuel)

/-- A Babel node's `loc` is well formed: 1-based start line, and the start
does not lie after the end. -/
def babelNodeOk (n : BabelNode) : Bool :=
  match n.loc with
  | some L =>
    decide (1 ≤ L.startLine ∧
      (L.startLine < L.endLine ∨
        (L.startLine = L.endLine ∧ L.startColumn ≤ L.endColumn)))
  | none => true

/-- Well-formedness of a Babel tree down to the walk depth, following the
walker's child enumeration. -/
def babelWF : Nat → BabelNode → Bool
  | 0, _ => true
  | fuel + 1, n =>
    let one := fun (o : Option BabelNode) =>
      match o with
      | some c => babelWF fuel c
      | none => true
    let many := fun (o : Option (List BabelNode)) =>
      match o with
      | some cs => cs.all (babelWF fuel)
      | none => true
    babelNodeOk n && many n.body && many n.declarations && many n.params &&
      many n.properties && many n.elements && one n.consequent &&
      one n.alternate && one n.test && one n.left && one n.right

/-- A TypeScript node's character offsets are well formed. -/
def tsNodeOk (n : TsNode) : Bool := decide (n.startPos ≤ n.endPos)

/-- Well-formedness of a TypeScript tree down to the walk depth. -/
def tsWF : Nat → TsNode → Bool
  | 0, _ => true
  | fuel + 1, n =>
    tsNodeOk n && n.children.all (tsWF fuel) &&
      (match n.statements with
        | some sts => sts.all (tsWF fuel)
        | none => true)

/-- Monotonicity of a source file's offset-to-position conversion: a later
offset never maps to an earlier line/character pair.  Every real
`getLineAndCharacterOfPosition` satisfies this. -/
def lineCharMono (lineChar : Nat → Nat × Nat) : Prop :=
  ∀ a b : Nat, a ≤ b →
    (lineChar a).1 < (lineChar b).1 ∨
      ((lineChar a).1 = (lineChar b).1 ∧ (lineChar a).2 ≤ (lineChar b).2)

/-! ## Concrete instances used in witnesses and counterexamples -/

/-- The exported `foo` function symbol that the end-to-end scenario's file
`a.ts` is specified to produce. -/
def fooFnSymbol : SymbolInfo :=
  { name := "foo", type := "function", scope := "global", lineStart := 1,
    lineEnd := 1, columnStart := 7, columnEnd := 19, signature := none,
    docstring := none, isExported := true, isImported := false }

/-- The `foo` import symbol that the end-to-end scenario's file `b.ts` is
specified to produce. -/
def fooImportSymbol : SymbolInfo :=
  { name := "foo", type := "import", scope := "global", lineStart := 1,
    lineEnd := 1, columnStart := 9, columnEnd := 12, signature := none,
    docstring := none, isExported := false, isImported := true }

/-- The symbol map of the end-to-end scenario, exactly as claims (1) and (2)
of the scenario describe it. -/
def scenarioSymbolMap : List (String × List SymbolInfo) :=
  [("a.ts", [fooFnSymbol]), ("b.ts", [fooImportSymbol])]

/-- The synthetic three-edge cycle `A → B → C → A`. -/
def edgesABC : List DependencyMapper.Edge :=
  [⟨"A", "B", "usage", 1⟩, ⟨"B", "C", "usage", 1⟩, ⟨"C", "A", "usage", 1⟩]

/-- A dependency graph whose node keys are `L` and whose edges form the cycle
`A → B → C → A`. -/
def graphABC (L : List String) : DependencyMapper.DependencyGraph :=
  ⟨L.map (fun x => (x, "")), edgesABC⟩

/-- A graph whose DFS reaches the `A → B → C → A` cycle from the non-cycle
root `D`. -/
def graphDABC : DependencyMapper.DependencyGraph :=
  ⟨[("D", ""), ("A", ""), ("B", ""), ("C", "")],
   ⟨"D", "A", "usage", 1⟩ :: edgesABC⟩

/-- A global-scope `foo` sample symbol (for the composite-criteria
counterexample). -/
def fooGlobalSym : SymbolInfo :=
  { name := "foo", type := "function", scope := "global", lineStart := 1,
    lineEnd := 1, columnStart := 0, columnEnd := 3, signature := none,
    docstring := none, isExported := true, isImported := false }

/-- A class-scope `foo` sample symbol. -/
def fooClassSym : SymbolInfo :=
  { name := "foo", type := "function", scope := "class", lineStart := 5,
    lineEnd := 5, columnStart := 2, columnEnd := 5, signature := none,
    docstring := none, isExported := false, isImported := false }

/-- The criteria object selecting name `foo` in scope `global` (two
simultaneously specified criteria). -/
def critNameScope : SymbolIndexer.Criteria :=
  { name := some "foo", type := none, filePath := none, scope := some "global",
    exported := none, imported := none, signature := none }

/-- A criteria object specifying a name together with the exported flag. -/
def critNameExported (nm : String) (b : Bool) : SymbolIndexer.Criteria :=
  { name := some nm, type := none, filePath := none, scope := none,
    exported := some b, imported := none, signature := none }

/-- An oracle assignment under which every third-party parse call throws
(used where a concrete oracle is needed and its behaviour is irrelevant). -/
def throwingOracles : ParserOracles :=
  { json := fun _ => .error "boom", yaml := fun _ => .error "boom"
    toml := fun _ => .error "boom", ini := fun _ => .error "boom"
    csv := fun _ => .error "boom", markdownIt := fun _ => .error "boom"
    htmlLib := fun _ => .error "boom", xmlLib := fun _ => .error "boom"
    yamlFrontMatter := fun _ => .error "boom", babelParse := fun _ => .error "boom"
    tsCreateSourceFile := fun _ => .error "boom", cssTree := fun _ => .error "boom"
    treeSitter := fun _ _ => .error "boom" }

/-- A disk on which every read fails. -/
def failingDisk : String → Except String String := fun _ => .error "ENOENT"

/-- A readable processed file with inline content and an extension that no
parser is registered for. -/
def qqqFile : ProcessedFile :=
  { path := "src/main.qqq", extension := "qqq", fileInfo := ⟨true⟩,
    isDirectory := false, content := some "export function hello() {}" }

/-- A processed file whose content must be read from disk. -/
def noContentFile : ProcessedFile :=
  { path := "gone.xyz", extension := "xyz", fileInfo := ⟨true⟩,
    isDirectory := false, content := none }

/-- An unreadable processed file (contributes no symbols and no error). -/
def unreadableFile : ProcessedFile :=
  { path := "locked.bin", extension := "bin", fileInfo := ⟨false⟩,
    isDirectory := false, content := none }

/-- A one-node tree-sitter tree for the position-invariant witness. -/
def wTreeNode : TreeNode :=
  .mk "function_declaration" (some "function w() {}") (some "w") none none
    none (some ⟨0, 0⟩) (some ⟨0, 15⟩) []

/-- A one-node Babel tree for the position-invariant witness. -/
def wBabelNode : BabelNode :=
  .mk "FunctionDeclaration" (some ⟨1, 0, 1, 15⟩) (some "w") none none none
    false none none (some []) none none none none none none none none none
    none none none

/-- A one-node TypeScript tree for the position-invariant witness. -/
def wTsNode : TsNode :=
  .mk 259 (some "w") none none true 0 15 none none none none none [] none

end Sensei

namespace Sensei

/-! ## Helper lemmas -/

set_option maxRecDepth 100000

/-- No parser is registered under the extension `foo`. -/
theorem getParser_foo : getParser "foo" = none := by decide

/-- No parser is registered under the extension `qqq`. -/
theorem getParser_qqq : getParser "qqq" = none := by decide

/-- `safeParse` always yields one of the two outcome shapes. -/
theorem safeParse_shape (c : Except String JsVal) :
    (safeParse c).success = true ∧ (safeParse c).ast.isSome ∧
        (safeParse c).error = none ∨
      (safeParse c).success = false ∧ (safeParse c).error.isSome ∧
        (safeParse c).ast = none := by
  cases c <;> simp [safeParse]

/-- Every parser's `parse` yields one of the two outcome shapes. -/
theorem parseAs_shape (o : ParserOracles) (k : ParserKind) (content : String) :
    (parseAs o k content).success = true ∧ (parseAs o k content).ast.isSome ∧
        (parseAs o k content).error = none ∨
      (parseAs o k content).success = false ∧
        (parseAs o k content).error.isSome ∧ (parseAs o k content).ast = none := by
  cases k <;> first
    | exact safeParse_shape _
    | (left; simp [parseAs])

namespace SymbolIndexer

theorem mapGet_addToIndex {K : Type} [DecidableEq K]
    (m : List (K × List SymbolInfo)) (k k' : K) (s : SymbolInfo) :
    mapGet (addToIndex m k' s) k =
      if k = k' then mapGet m k ++ [s] else mapGet m k := by
  induction m with
  | nil =>
    by_cases h : k = k' <;>
      simp [addToIndex, mapGet, h, eq_comm]
  | cons hd tl ih =>
    obtain ⟨a, l⟩ := hd
    by_cases h1 : a = k' <;> by_cases h2 : a = k
    · subst h1; subst h2
      simp [addToIndex, mapGet]
    · subst h1
      have h2' : ¬ k = a := fun h => h2 h.symm
      simp [addToIndex, mapGet, h2, h2', ih]
    · subst h2
      simp [addToIndex, mapGet, h1, ih]
    · simp [addToIndex, mapGet, h1, h2, ih]

theorem mem_mapGet_addToIndex_self {K : Type} [DecidableEq K]
    (m : List (K × List SymbolInfo)) (k : K) (s : SymbolInfo) :
    s ∈ mapGet (addToIndex m k s) k := by
  rw [mapGet_addToIndex]
  simp

theorem mem_mapGet_addToIndex_mono {K : Type} [DecidableEq K]
    {m : List (K × List SymbolInfo)} {k : K} {s : SymbolInfo} (k' : K)
    (s' : SymbolInfo) (h : s ∈ mapGet m k) :
    s ∈ mapGet (addToIndex m k' s') k := by
  rw [mapGet_addToIndex]
  split <;> simp [h]

/-- The inner loop of `buildIndex` over one file's symbols. -/
def foldSyms (fp : String) (syms : List SymbolInfo) (idx : SymbolIndex) :
    SymbolIndex :=
  syms.foldl (fun i x => processSymbol i fp x) idx

theorem foldSyms_byName_mono {s : SymbolInfo} {k : String}
    (syms : List SymbolInfo) (fp : String) (idx : SymbolIndex)
    (h : s ∈ mapGet idx.byName k) :
    s ∈ mapGet (foldSyms fp syms idx).byName k := by
  induction syms generalizing idx with
  | nil => exact h
  | cons a tl ih =>
    exact ih _ (mem_mapGet_addToIndex_mono a.name a h)

theorem foldSyms_byFile_mono {s : SymbolInfo} {k : String}
    (syms : List SymbolInfo) (fp : String) (idx : SymbolIndex)
    (h : s ∈ mapGet idx.byFile k) :
    s ∈ mapGet (foldSyms fp syms idx).byFile k := by
  induction syms generalizing idx with
  | nil => exact h
  | cons a tl ih =>
    exact ih _ (mem_mapGet_addToIndex_mono fp a h)

theorem foldSyms_mem {s : SymbolInfo} (syms : List SymbolInfo) (fp : String)
    (idx : SymbolIndex) (h : s ∈ syms) :
    s ∈ mapGet (foldSyms fp syms idx).byName s.name ∧
      s ∈ mapGet (foldSyms fp syms idx).byFile fp := by
  induction syms generalizing idx with
  | nil => cases h
  | cons a tl ih =>
    rcases List.mem_cons.mp h with rfl | h'
    · constructor
      · exact foldSyms_byName_mono tl fp _
          (mem_mapGet_addToIndex_self idx.byName s.name s)
      · exact foldSyms_byFile_mono tl fp _
          (mem_mapGet_addToIndex_self idx.byFile fp s)
    · exact ih _ h'

/-- The outer loop of `buildIndex` over the file map. -/
def foldMap (sm : List (String × List SymbolInfo)) (idx : SymbolIndex) :
    SymbolIndex :=
  sm.foldl (fun i e => foldSyms e.1 e.2 i) idx

theorem foldMap_byName_mono {s : SymbolInfo} {k : String}
    (sm : List (String × List SymbolInfo)) (idx : SymbolIndex)
    (h : s ∈ mapGet idx.byName k) :
    s ∈ mapGet (foldMap sm idx).byName k := by
  induction sm generalizing idx with
  | nil => exact h
  | cons e tl ih => exact ih _ (foldSyms_byName_mono e.2 e.1 idx h)

theorem foldMap_byFile_mono {s : SymbolInfo} {k : String}
    (sm : List (String × List SymbolInfo)) (idx : SymbolIndex)
    (h : s ∈ mapGet idx.byFile k) :
    s ∈ mapGet (foldMap sm idx).byFile k := by
  induction sm generalizing idx with
  | nil => exact h
  | cons e tl ih => exact ih _ (foldSyms_byFile_mono e.2 e.1 idx h)

theorem foldMap_mem {s : SymbolInfo} {p : String} {syms : List SymbolInfo}
    (sm : List (String × List SymbolInfo)) (idx : SymbolIndex)
    (h1 : (p, syms) ∈ sm) (h2 : s ∈ syms) :
    s ∈ mapGet (foldMap sm idx).byName s.name ∧
      s ∈ mapGet (foldMap sm idx).byFile p := by
  induction sm generalizing idx with
  | nil => cases h1
  | cons e tl ih =>
    rcases List.mem_cons.mp h1 with rfl | h'
    · have hm := foldSyms_mem syms p idx h2
      exact ⟨foldMap_byName_mono tl _ hm.1, foldMap_byFile_mono tl _ hm.2⟩
    · exact ih _ h'

theorem buildIndex_byName (sm : List (String × List SymbolInfo)) :
    (buildIndex sm).byName = (foldMap sm createEmptyIndex).byName := by
  simp [buildIndex, foldMap, foldSyms]

theorem buildIndex_byFile (sm : List (String × List SymbolInfo)) :
    (buildIndex sm).byFile = (foldMap sm createEmptyIndex).byFile := by
  simp [buildIndex, foldMap, foldSyms]

theorem mapGet_foldSyms_byName (syms : List SymbolInfo) (fp : String)
    (idx : SymbolIndex) (n : String) :
    mapGet (foldSyms fp syms idx).byName n =
      mapGet idx.byName n ++ syms.filter (fun s => s.name = n) := by
  induction syms generalizing idx with
  | nil => simp [foldSyms]
  | cons a tl ih =>
    have step : foldSyms fp (a :: tl) idx = foldSyms fp tl (processSymbol idx fp a) := rfl
    rw [step, ih]
    have hadd : mapGet (processSymbol idx fp a).byName n =
        if n = a.name then mapGet idx.byName n ++ [a] else mapGet idx.byName n :=
      mapGet_addToIndex idx.byName n a.name a
    by_cases h : a.name = n
    · rw [hadd, if_pos h.symm]
      simp [h]
    · rw [hadd, if_neg (fun hh => h hh.symm)]
      simp [h]

theorem mapGet_foldMap_byName (sm : List (String × List SymbolInfo))
    (idx : SymbolIndex) (n : String) :
    mapGet (foldMap sm idx).byName n =
      mapGet idx.byName n ++ ((sm.map Prod.snd).flatten).filter (fun s => s.name = n) := by
  induction sm generalizing idx with
  | nil => simp [foldMap]
  | cons e tl ih =>
    have step : foldMap (e :: tl) idx = foldMap tl (foldSyms e.1 e.2 idx) := rfl
    rw [step, ih, mapGet_foldSyms_byName]
    simp [List.append_assoc]

/-- The `byName` bucket of a built index is exactly the name-filtered
flattened symbol map, in insertion order. -/
theorem mapGet_buildIndex_byName (sm : List (String × List SymbolInfo))
    (n : String) :
    mapGet (buildIndex sm).byName n =
      ((sm.map Prod.snd).flatten).filter (fun s => s.name = n) := by
  rw [buildIndex_byName, mapGet_foldMap_byName]
  simp [createEmptyIndex, mapGet]

end SymbolIndexer

/-! ## Claim theorems -/

/-- C3: after `SymbolIndexer.buildIndex(symbolMap)` is called, every symbol
`s` appearing in `symbolMap` under a file path `p` is an element both of
`findSymbolsInFile(p)` and of `findSymbol(s.name)`. -/
theorem C3_index_roundtrip (symbolMap : List (String × List SymbolInfo))
    (p : String) (syms : List SymbolInfo) (s : SymbolInfo)
    (h1 : (p, syms) ∈ symbolMap) (h2 : s ∈ syms) :
    s ∈ SymbolIndexer.findSymbolsInFile (SymbolIndexer.buildIndex symbolMap) p ∧
      s ∈ SymbolIndexer.findSymbol (SymbolIndexer.buildIndex symbolMap) s.name := by
  have hm := SymbolIndexer.foldMap_mem symbolMap SymbolIndexer.createEmptyIndex h1 h2
  constructor
  · rw [SymbolIndexer.findSymbolsInFile, SymbolIndexer.buildIndex_byFile]
    exact hm.2
  · rw [SymbolIndexer.findSymbol, SymbolIndexer.buildIndex_byName]
    exact hm.1

/-- C3 witness: the round trip at a concrete two-file symbol map. -/
theorem C3_index_roundtrip_witness :
    ("a.ts", [fooFnSymbol]) ∈ scenarioSymbolMap ∧ fooFnSymbol ∈ [fooFnSymbol] ∧
      (fooFnSymbol ∈
          SymbolIndexer.findSymbolsInFile (SymbolIndexer.buildIndex scenarioSymbolMap) "a.ts" ∧
        fooFnSymbol ∈
          SymbolIndexer.findSymbol (SymbolIndexer.buildIndex scenarioSymbolMap)
            fooFnSymbol.name) :=
  ⟨by decide, by decide,
    C3_index_roundtrip scenarioSymbolMap "a.ts" [fooFnSymbol] fooFnSymbol
      (by decide) (by decide)⟩

/-- C4 counterexample: with two `foo` symbols of scopes `global` and `class`
indexed, the criteria `{name: "foo", scope: "global"}` return both symbols —
the scope filter is skipped because the first result already has scope
`global` — so the result is not the conjunction of the criteria. -/
theorem C4_counterexample :
    SymbolIndexer.findSymbolsByCriteria
        (SymbolIndexer.buildIndex [("f.ts", [fooGlobalSym, fooClassSym])])
        critNameScope = [fooGlobalSym, fooClassSym] ∧
      fooClassSym.scope ≠ "global" := by
  constructor
  · decide
  · decide

/-- C4 (amended): when the criteria specify a nonempty name together with the
exported flag, `findSymbolsByCriteria` does return exactly the indexed
symbols satisfying both criteria, in insertion order; in general the
equality-guarded secondary filters (type, filePath, scope, signature) are
skipped whenever the first intermediate result already satisfies the
criterion, so conjunction semantics fail (see the counterexample). -/
theorem C4_criteria_conjunction (sm : List (String × List SymbolInfo))
    (nm : String) (b : Bool) (h : nm ≠ "") :
    SymbolIndexer.findSymbolsByCriteria (SymbolIndexer.buildIndex sm)
        (critNameExported nm b) =
      (((sm.map Prod.snd).flatten).filter (fun s => s.name = nm)).filter
        (fun s => s.isExported = b) := by
  set idx := SymbolIndexer.buildIndex sm with hidx
  have hbucket := SymbolIndexer.mapGet_buildIndex_byName sm nm
  have hseed : SymbolIndexer.primarySeed idx (critNameExported nm b) =
      ((sm.map Prod.snd).flatten).filter (fun s => s.name = nm) := by
    rw [SymbolIndexer.primarySeed]
    rw [if_pos (by simp [critNameExported, oTruthy, h])]
    simpa [critNameExported, SymbolIndexer.findSymbol, hidx] using hbucket
  have hall : ∀ s ∈ SymbolIndexer.primarySeed idx (critNameExported nm b),
      s.name = nm := by
    intro s hs
    rw [hseed] at hs
    simpa using (List.mem_filter.mp hs).2
  have hname : SymbolIndexer.nameGuard (critNameExported nm b)
      (SymbolIndexer.primarySeed idx (critNameExported nm b)) =
      SymbolIndexer.primarySeed idx (critNameExported nm b) := by
    rw [SymbolIndexer.nameGuard]
    split
    · refine List.filter_eq_self.mpr ?_
      intro a ha
      simpa [critNameExported] using hall a ha
    · rfl
  have htype : ∀ r, SymbolIndexer.typeGuard (critNameExported nm b) r = r := by
    intro r
    rw [SymbolIndexer.typeGuard]
    rw [if_neg (by simp [critNameExported, oTruthy])]
  have hpath : ∀ r, SymbolIndexer.filePathGuard (critNameExported nm b) r = r := by
    intro r
    rw [SymbolIndexer.filePathGuard]
    rw [if_neg (by simp [critNameExported, oTruthy])]
  have hscope : ∀ r, SymbolIndexer.scopeGuard (critNameExported nm b) r = r := by
    intro r
    rw [SymbolIndexer.scopeGuard]
    rw [if_neg (by simp [critNameExported, oTruthy])]
  have hexp : ∀ r, SymbolIndexer.exportedFilter (critNameExported nm b) r =
      r.filter (fun s => s.isExported = b) := by
    intro r
    simp [SymbolIndexer.exportedFilter, critNameExported]
  have himp : ∀ r, SymbolIndexer.importedFilter (critNameExported nm b) r = r := by
    intro r
    simp [SymbolIndexer.importedFilter, critNameExported]
  have hsig : ∀ r, SymbolIndexer.signatureGuard (critNameExported nm b) r = r := by
    intro r
    rw [SymbolIndexer.signatureGuard]
    rw [if_neg (by simp [critNameExported, oTruthy])]
  rw [SymbolIndexer.findSymbolsByCriteria]
  rw [if_neg (by simp [SymbolIndexer.Criteria.isEmpty, critNameExported])]
  rw [hname, htype, hpath, hscope, hexp, himp, hsig, hseed]

/-- C4 amended witness: the name+exported conjunction at a concrete index. -/
theorem C4_criteria_conjunction_witness :
    ("foo" : String) ≠ "" ∧
      SymbolIndexer.findSymbolsByCriteria
          (SymbolIndexer.buildIndex [("f.ts", [fooGlobalSym, fooClassSym])])
          (critNameExported "foo" true) =
        ((([("f.ts", [fooGlobalSym, fooClassSym])].map Prod.snd).flatten).filter
            (fun s => s.name = "foo")).filter (fun s => s.isExported = true) :=
  ⟨by decide,
    C4_criteria_conjunction [("f.ts", [fooGlobalSym, fooClassSym])] "foo" true
      (by decide)⟩

/-- C5: for every content string and extension, the dispatched parser's
`parse` returns an outcome that is either success-with-AST or
failure-with-error; no path raises to the caller (every throw site of a
third-party parse is wrapped by `safeParse`, and an `async` parse function
cannot throw synchronously). -/
theorem C5_parse_outcome (o : ParserOracles) (content ext : String) :
    (parseFile o content ext).success = true ∧
        (parseFile o content ext).ast.isSome ∧
        (parseFile o content ext).error = none ∨
      (parseFile o content ext).success = false ∧
        (parseFile o content ext).error.isSome ∧
        (parseFile o content ext).ast = none := by
  unfold parseFile
  cases h : getParser ext with
  | none => exact parseAs_shape ..
  | some k => exact parseAs_shape ..

end Sensei

namespace Sensei

namespace DependencyMapper

theorem findCycle_in_stack (g : DependencyGraph) (fuel : Nat) (x : String)
    (st : List String × List String) (h : x ∈ st.2) :
    findCycle g (fuel + 1) x st = ([x], st) := by
  rw [findCycle, if_pos h]

theorem graphABC_edges (L : List String) : (graphABC L).edges = edgesABC := rfl

theorem graphABC_keys (L : List String) : (graphABC L).nodes.map Prod.fst = L := by
  rw [graphABC]
  induction L with
  | nil => rfl
  | cons a t ih => simpa using ih

theorem fcC (L : List String) (n : Nat) (V : List String) (hC : "C" ∉ V) :
    findCycle (graphABC L) (n + 2) "C" (V, ["B", "A"]) =
      (["C", "A"], ("C" :: V, ["B", "A"])) := by
  have hA := findCycle_in_stack (graphABC L) n "A" ("C" :: V, ["C", "B", "A"])
    (by simp)
  rw [findCycle]
  rw [if_neg (by simp), if_neg (by simpa using hC)]
  rw [graphABC_edges]
  simp only [edgesABC, List.foldl_cons, List.foldl_nil, cycleEdgeStep]
  simp [hA, List.erase_cons]

theorem fcB (L : List String) (n : Nat) (V : List String) (hB : "B" ∉ V)
    (hC : "C" ∉ V) :
    findCycle (graphABC L) (n + 3) "B" (V, ["A"]) =
      (["B", "C", "A"], ("C" :: "B" :: V, ["A"])) := by
  have hc := fcC L n ("B" :: V) (by simp [hC])
  rw [findCycle]
  rw [if_neg (by simp), if_neg (by simpa using hB)]
  rw [graphABC_edges]
  simp only [edgesABC, List.foldl_cons, List.foldl_nil, cycleEdgeStep]
  simp [hc, List.erase_cons]

theorem fcA (L : List String) (n : Nat) (V : List String) (hA : "A" ∉ V)
    (hB : "B" ∉ V) (hC : "C" ∉ V) :
    findCycle (graphABC L) (n + 4) "A" (V, []) =
      (["A", "B", "C", "A"], ("C" :: "B" :: "A" :: V, [])) := by
  have hb := fcB L n ("A" :: V) (by simp [hB]) (by simp [hC])
  rw [findCycle]
  rw [if_neg (by simp), if_neg (by simpa using hA)]
  rw [graphABC_edges]
  simp only [edgesABC, List.foldl_cons, List.foldl_nil, cycleEdgeStep]
  simp [hb, List.erase_cons]

theorem fcA_rB (L : List String) (n : Nat) (V : List String) (hA : "A" ∉ V) :
    findCycle (graphABC L) (n + 2) "A" (V, ["C", "B"]) =
      (["A", "B"], ("A" :: V, ["C", "B"])) := by
  have hb := findCycle_in_stack (graphABC L) n "B" ("A" :: V, ["A", "C", "B"])
    (by simp)
  rw [findCycle]
  rw [if_neg (by simp), if_neg (by simpa using hA)]
  rw [graphABC_edges]
  simp only [edgesABC, List.foldl_cons, List.foldl_nil, cycleEdgeStep]
  simp [hb, List.erase_cons]

theorem fcC_rB (L : List String) (n : Nat) (V : List String) (hA : "A" ∉ V)
    (hC : "C" ∉ V) :
    findCycle (graphABC L) (n + 3) "C" (V, ["B"]) =
      (["C", "A", "B"], ("A" :: "C" :: V, ["B"])) := by
  have ha := fcA_rB L n ("C" :: V) (by simp [hA])
  rw [findCycle]
  rw [if_neg (by simp), if_neg (by simpa using hC)]
  rw [graphABC_edges]
  simp only [edgesABC, List.foldl_cons, List.foldl_nil, cycleEdgeStep]
  simp [ha, List.erase_cons]

theorem fcB_first (L : List String) (n : Nat) (V : List String) (hA : "A" ∉ V)
    (hB : "B" ∉ V) (hC : "C" ∉ V) :
    findCycle (graphABC L) (n + 4) "B" (V, []) =
      (["B", "C", "A", "B"], ("A" :: "C" :: "B" :: V, [])) := by
  have hc := fcC_rB L n ("B" :: V) (by simp [hA]) (by simp [hC])
  rw [findCycle]
  rw [if_neg (by simp), if_neg (by simpa using hB)]
  rw [graphABC_edges]
  simp only [edgesABC, List.foldl_cons, List.foldl_nil, cycleEdgeStep]
  simp [hc, List.erase_cons]

theorem fcB_rC (L : List String) (n : Nat) (V : List String) (hB : "B" ∉ V) :
    findCycle (graphABC L) (n + 2) "B" (V, ["A", "C"]) =
      (["B", "C"], ("B" :: V, ["A", "C"])) := by
  have hc := findCycle_in_stack (graphABC L) n "C" ("B" :: V, ["B", "A", "C"])
    (by simp)
  rw [findCycle]
  rw [if_neg (by simp), if_neg (by simpa using hB)]
  rw [graphABC_edges]
  simp only [edgesABC, List.foldl_cons, List.foldl_nil, cycleEdgeStep]
  simp [hc, List.erase_cons]

theorem fcA_rC (L : List String) (n : Nat) (V : List String) (hA : "A" ∉ V)
    (hB : "B" ∉ V) :
    findCycle (graphABC L) (n + 3) "A" (V, ["C"]) =
      (["A", "B", "C"], ("B" :: "A" :: V, ["C"])) := by
  have hb := fcB_rC L n ("A" :: V) (by simp [hB])
  rw [findCycle]
  rw [if_neg (by simp), if_neg (by simpa using hA)]
  rw [graphABC_edges]
  simp only [edgesABC, List.foldl_cons, List.foldl_nil, cycleEdgeStep]
  simp [hb, List.erase_cons]

theorem fcC_first (L : List String) (n : Nat) (V : List String) (hA : "A" ∉ V)
    (hB : "B" ∉ V) (hC : "C" ∉ V) :
    findCycle (graphABC L) (n + 4) "C" (V, []) =
      (["C", "A", "B", "C"], ("B" :: "A" :: "C" :: V, [])) := by
  have ha := fcA_rC L n ("C" :: V) (by simp [hA]) (by simp [hB])
  rw [findCycle]
  rw [if_neg (by simp), if_neg (by simpa using hC)]
  rw [graphABC_edges]
  simp only [edgesABC, List.foldl_cons, List.foldl_nil, cycleEdgeStep]
  simp [ha, List.erase_cons]

theorem fcOther (L : List String) (n : Nat) (V : List String) (x : String)
    (hx : x ∉ V) (hxA : x ≠ "A") (hxB : x ≠ "B") (hxC : x ≠ "C") :
    findCycle (graphABC L) (n + 1) x (V, []) = ([], (x :: V, [])) := by
  rw [findCycle]
  rw [if_neg (by simp), if_neg (by simpa using hx)]
  rw [graphABC_edges]
  simp only [edgesABC, List.foldl_cons, List.foldl_nil, cycleEdgeStep]
  have h1 : ¬ ("A" = x) := fun h => hxA h.symm
  have h2 : ¬ ("B" = x) := fun h => hxB h.symm
  have h3 : ¬ ("C" = x) := fun h => hxC h.symm
  simp [h1, h2, h3, List.erase_cons]

theorem detectCycles_mono (g : DependencyGraph) (keys : List String)
    (acc : List (List String) × (List String × List String))
    (cyc : List String) (h : cyc ∈ acc.1) :
    cyc ∈ (keys.foldl (detectStep g) acc).1 := by
  induction keys generalizing acc with
  | nil => exact h
  | cons x tl ih =>
    refine ih (detectStep g acc x) ?_
    unfold detectStep
    split
    · exact h
    · split
      · simp [h]
      · exact h

theorem cycleFuel_graphABC (L : List String) :
    cycleFuel (graphABC L) = L.length + 4 := by
  simp [cycleFuel, graphABC, edgesABC]

theorem detect_finds (L : List String) :
    ∀ (keys : List String) (cs : List (List String)) (V : List String),
      "A" ∈ keys → "A" ∉ V → "B" ∉ V → "C" ∉ V →
      ∃ cyc ∈ (keys.foldl (detectStep (graphABC L)) (cs, (V, []))).1,
        "A" ∈ cyc ∧ "B" ∈ cyc ∧ "C" ∈ cyc := by
  intro keys
  induction keys with
  | nil => intro cs V hA _ _ _; cases hA
  | cons x tl ih =>
    intro cs V hAk hA hB hC
    by_cases hxV : x ∈ V
    · have hstep : detectStep (graphABC L) (cs, (V, [])) x = (cs, (V, [])) := by
        unfold detectStep
        rw [if_pos (by simpa using hxV)]
      have hxA : x ≠ "A" := fun h => hA (h ▸ hxV)
      have hAk' : "A" ∈ tl := by
        rcases List.mem_cons.mp hAk with h | h
        · exact absurd h.symm hxA
        · exact h
      rw [List.foldl_cons, hstep]
      exact ih cs V hAk' hA hB hC
    · by_cases hxA : x = "A"
      · subst hxA
        have hfc := fcA L L.length V hA hB hC
        have hstep : detectStep (graphABC L) (cs, (V, [])) "A" =
            (cs ++ [["A", "B", "C", "A"]],
              ("C" :: "B" :: "A" :: V, [])) := by
          unfold detectStep
          rw [if_neg (by simpa using hxV)]
          rw [cycleFuel_graphABC, hfc]
          simp
        rw [List.foldl_cons, hstep]
        refine ⟨["A", "B", "C", "A"], detectCycles_mono _ tl _ _ (by simp), by decide⟩
      · by_cases hxB : x = "B"
        · subst hxB
          have hfc := fcB_first L L.length V hA hB hC
          have hstep : detectStep (graphABC L) (cs, (V, [])) "B" =
              (cs ++ [["B", "C", "A", "B"]],
                ("A" :: "C" :: "B" :: V, [])) := by
            unfold detectStep
            rw [if_neg (by simpa using hxV)]
            rw [cycleFuel_graphABC, hfc]
            simp
          rw [List.foldl_cons, hstep]
          refine ⟨["B", "C", "A", "B"], detectCycles_mono _ tl _ _ (by simp), by decide⟩
        · by_cases hxC : x = "C"
          · subst hxC
            have hfc := fcC_first L L.length V hA hB hC
            have hstep : detectStep (graphABC L) (cs, (V, [])) "C" =
                (cs ++ [["C", "A", "B", "C"]],
                  ("B" :: "A" :: "C" :: V, [])) := by
              unfold detectStep
              rw [if_neg (by simpa using hxV)]
              rw [cycleFuel_graphABC, hfc]
              simp
            rw [List.foldl_cons, hstep]
            refine ⟨["C", "A", "B", "C"], detectCycles_mono _ tl _ _ (by simp), by decide⟩
          · have hfc := fcOther L (L.length + 3) V x hxV hxA hxB hxC
            have hstep : detectStep (graphABC L) (cs, (V, [])) x =
                (cs, (x :: V, [])) := by
              unfold detectStep
              rw [if_neg (by simpa using hxV)]
              rw [cycleFuel_graphABC]
              rw [show L.length + 4 = (L.length + 3) + 1 from rfl, hfc]
              simp
            have hAk' : "A" ∈ tl := by
              rcases List.mem_cons.mp hAk with h | h
              · exact absurd h.symm hxA
              · exact h
            rw [List.foldl_cons, hstep]
            have hA2 : ¬ "A" = x := fun h => hxA h.symm
            have hB2 : ¬ "B" = x := fun h => hxB h.symm
            have hC2 : ¬ "C" = x := fun h => hxC h.symm
            exact ih cs (x :: V) hAk' (by simp [hA, hA2]) (by simp [hB, hB2])
              (by simp [hC, hC2])

end DependencyMapper

/-- C2: for every dependency graph whose node keys include `A`, `B`, `C` and
whose edges form the cycle `A → B → C → A`, the analysis's
`circularDependencies` contains a cycle list including all three nodes. -/
theorem C2_cycle_detected (L : List String) (hnd : L.Nodup) (hA : "A" ∈ L)
    (hB : "B" ∈ L) (hC : "C" ∈ L) :
    ∃ cyc ∈ (DependencyMapper.analyzeDependencies (graphABC L)).circularDependencies,
      "A" ∈ cyc ∧ "B" ∈ cyc ∧ "C" ∈ cyc := by
  have hform : (DependencyMapper.analyzeDependencies (graphABC L)).circularDependencies =
      (((graphABC L).nodes.map Prod.fst).foldl
        (DependencyMapper.detectStep (graphABC L)) ([], ([], []))).1 := rfl
  rw [hform, DependencyMapper.graphABC_keys]
  exact DependencyMapper.detect_finds L L [] [] hA (by simp) (by simp) (by simp)

/-- C2 witness: the three-node cycle graph itself. -/
theorem C2_cycle_detected_witness :
    (["A", "B", "C"] : List String).Nodup ∧
      ∃ cyc ∈ (DependencyMapper.analyzeDependencies
          (graphABC ["A", "B", "C"])).circularDependencies,
        "A" ∈ cyc ∧ "B" ∈ cyc ∧ "C" ∈ cyc :=
  ⟨by decide,
    C2_cycle_detected ["A", "B", "C"] (by decide) (by decide) (by decide) (by decide)⟩

end Sensei
namespace Sensei

namespace DependencyMapper

theorem cycleEdgeStep_stack (rec : String → List String × List String →
      List String × (List String × List String))
    (hrec : ∀ y st, (rec y st).2.2 = st.2) (x : String)
    (acc : Option (List String) × (List String × List String)) (e : Edge) :
    (cycleEdgeStep rec x acc e).2.2 = acc.2.2 := by
  rcases acc with ⟨o, st⟩
  cases o with
  | some c => rfl
  | none =>
    simp only [cycleEdgeStep]
    by_cases hf : e.«from» = x
    · rw [if_pos hf]
      by_cases hfc : (rec e.«to» st).1 ≠ []
      · rw [if_pos hfc]
        exact hrec _ _
      · rw [if_neg hfc]
        exact hrec _ _
    · rw [if_neg hf]

theorem foldl_cycleEdgeStep_stack (rec : String → List String × List String →
      List String × (List String × List String))
    (hrec : ∀ y st, (rec y st).2.2 = st.2) (x : String) :
    ∀ (es : List Edge) (acc : Option (List String) × (List String × List String)),
      (es.foldl (cycleEdgeStep rec x) acc).2.2 = acc.2.2 := by
  intro es
  induction es with
  | nil => intro acc; rfl
  | cons e t ih =>
    intro acc
    rw [List.foldl_cons, ih]
    exact cycleEdgeStep_stack rec hrec x acc e

theorem findCycle_stack (g : DependencyGraph) :
    ∀ (fuel : Nat) (x : String) (st : List String × List String),
      (findCycle g fuel x st).2.2 = st.2 := by
  intro fuel
  induction fuel with
  | zero => intro x st; rfl
  | succ fuel ih =>
    intro x st
    rw [findCycle]
    by_cases h1 : x ∈ st.2
    · rw [if_pos h1]
    · rw [if_neg h1]
      by_cases h2 : x ∈ st.1
      · rw [if_pos h2]
      · rw [if_neg h2]
        have hfold := foldl_cycleEdgeStep_stack (findCycle g fuel) (ih) x
            g.edges (none, (x :: st.1, x :: st.2))
        rcases hr : g.edges.foldl (cycleEdgeStep (findCycle g fuel) x)
            (none, (x :: st.1, x :: st.2)) with ⟨o, st'⟩
        rw [hr] at hfold
        have hst : st'.2 = x :: st.2 := hfold
        cases o with
        | none =>
          show st'.2.erase x = st.2
          rw [hst]
          exact List.erase_cons_head x st.2
        | some c =>
          show st'.2.erase x = st.2
          rw [hst]
          exact List.erase_cons_head x st.2

theorem foldl_cycleEdgeStep_some (rec : String → List String × List String →
      List String × (List String × List String))
    (hrec : ∀ y st, (rec y st).2.2 = st.2) (x : String) :
    ∀ (es : List Edge) (acc : Option (List String) × (List String × List String))
      (cyc : List String) (st' : List String × List String),
      es.foldl (cycleEdgeStep rec x) acc = (some cyc, st') →
      acc.1 = some cyc ∨ ∃ y v1, cyc = (rec y (v1, acc.2.2)).1 ∧ cyc ≠ [] := by
  intro es
  induction es with
  | nil =>
    intro acc cyc st' h
    left
    rw [List.foldl_nil] at h
    rw [h]
  | cons e t ih =>
    intro acc cyc st' h
    rw [List.foldl_cons] at h
    rcases ih (cycleEdgeStep rec x acc e) cyc st' h with h1 | ⟨y, v1, hcyc, hne⟩
    · rcases acc with ⟨o, st⟩
      cases o with
      | some c => exact Or.inl h1
      | none =>
        right
        simp only [cycleEdgeStep] at h1
        by_cases hf : e.«from» = x
        · rw [if_pos hf] at h1
          by_cases hfc : (rec e.«to» st).1 ≠ []
          · rw [if_pos hfc] at h1
            have hcyc : cyc = (rec e.«to» st).1 := (Option.some.inj h1).symm
            exact ⟨e.«to», st.1, hcyc, hcyc ▸ hfc⟩
          · rw [if_neg hfc] at h1
            cases h1
        · rw [if_neg hf] at h1
          cases h1
    · right
      have hstack : (cycleEdgeStep rec x acc e).2.2 = acc.2.2 :=
        cycleEdgeStep_stack rec hrec x acc e
      rw [hstack] at hcyc
      exact ⟨y, v1, hcyc, hne⟩

theorem findCycle_shape (g : DependencyGraph) :
    ∀ (fuel : Nat) (x : String) (st : List String × List String),
      (findCycle g fuel x st).1 ≠ [] →
      ∃ l m, (findCycle g fuel x st).1 = l ++ [m] ∧ (m ∈ st.2 ∨ m ∈ l) := by
  intro fuel
  induction fuel with
  | zero => intro x st h; exact absurd rfl h
  | succ fuel ih =>
    intro x st h
    rw [findCycle] at h ⊢
    by_cases h1 : x ∈ st.2
    · rw [if_pos h1] at h ⊢
      exact ⟨[], x, rfl, Or.inl h1⟩
    · rw [if_neg h1] at h ⊢
      by_cases h2 : x ∈ st.1
      · rw [if_pos h2] at h
        exact absurd rfl h
      · rw [if_neg h2] at h ⊢
        rcases hr : g.edges.foldl (cycleEdgeStep (findCycle g fuel) x)
            (none, (x :: st.1, x :: st.2)) with ⟨o, st'⟩
        rw [hr] at h
        cases o with
        | none => exact absurd rfl h
        | some cyc =>
          rcases foldl_cycleEdgeStep_some (findCycle g fuel)
              (findCycle_stack g fuel) x g.edges _ cyc st' hr with h3 | ⟨y, v1, hcyc, hne⟩
          · cases h3
          · have hne2 : (findCycle g fuel y (v1, x :: st.2)).1 ≠ [] := by
              rw [← hcyc]; exact hne
            rcases ih y (v1, x :: st.2) hne2 with ⟨l, m, hlm, hm⟩
            rw [← hcyc] at hlm
            refine ⟨x :: l, m, ?_, ?_⟩
            · show x :: cyc = x :: l ++ [m]
              rw [hlm]
              rfl
            · rcases hm with hms | hml
              · rcases List.mem_cons.mp hms with hmx | hms2
                · exact Or.inr (hmx ▸ List.mem_cons_self m l)
                · exact Or.inl hms2
              · exact Or.inr (List.mem_cons_of_mem x hml)

theorem detectStep_stack (g : DependencyGraph)
    (acc : List (List String) × (List String × List String)) (nodeId : String) :
    (detectStep g acc nodeId).2.2 = acc.2.2 := by
  unfold detectStep
  split
  · rfl
  · split
    · exact findCycle_stack g _ _ _
    · exact findCycle_stack g _ _ _

theorem detectCycles_shape_aux (g : DependencyGraph) :
    ∀ (keys : List String) (acc : List (List String) × (List String × List String)),
      acc.2.2 = [] →
      (∀ cyc ∈ acc.1, ∃ l m, cyc = l ++ [m] ∧ m ∈ l) →
      ∀ cyc ∈ (keys.foldl (detectStep g) acc).1,
        ∃ l m, cyc = l ++ [m] ∧ m ∈ l := by
  intro keys
  induction keys with
  | nil => intro acc hst hacc cyc hc; exact hacc cyc hc
  | cons x tl ih =>
    intro acc hst hacc cyc hc
    rw [List.foldl_cons] at hc
    refine ih (detectStep g acc x) ?_ ?_ cyc hc
    · rw [detectStep_stack g acc x, hst]
    · intro c hcmem
      unfold detectStep at hcmem
      by_cases h1 : x ∈ acc.2.1
      · rw [if_pos h1] at hcmem
        exact hacc c hcmem
      · rw [if_neg h1] at hcmem
        by_cases h2 : (findCycle g (cycleFuel g) x acc.2).1 ≠ []
        · rw [if_pos h2] at hcmem
          rcases List.mem_append.mp hcmem with h3 | h3
          · exact hacc c h3
          · have hc1 : c = (findCycle g (cycleFuel g) x acc.2).1 := by
              simpa using h3
            rcases findCycle_shape g (cycleFuel g) x acc.2 h2 with ⟨l, m, hlm, hm⟩
            rw [hst] at hm
            rcases hm with hm | hm
            · cases hm
            · exact ⟨l, m, hc1.trans hlm, hm⟩
        · rw [if_neg h2] at hcmem
          exact hacc c hcmem

theorem detectCycles_shape (g : DependencyGraph) :
    ∀ cyc ∈ detectCycles g, ∃ l m, cyc = l ++ [m] ∧ m ∈ l := by
  intro cyc hc
  exact detectCycles_shape_aux g (g.nodes.map Prod.fst) ([], ([], [])) rfl
    (by intro c hc2; cases hc2) cyc hc

end DependencyMapper

/-- C10: every list reported in `circularDependencies` has length at least 2
and ends in a node that already occurs earlier in the same list (the DFS path
closes on a repeated node); the list may carry leading nodes that are not part
of the cycle, as the `D → A → B → C → A` graph shows: its one reported list is
`[D, A, B, C, A]`, whose head `D` is outside the repeated-`A` cycle. -/
theorem C10_cycle_shape :
    (∀ (g : DependencyMapper.DependencyGraph) (cyc : List String),
        cyc ∈ (DependencyMapper.analyzeDependencies g).circularDependencies →
          2 ≤ cyc.length ∧ ∃ l m, cyc = l ++ [m] ∧ m ∈ l) ∧
      (DependencyMapper.analyzeDependencies graphDABC).circularDependencies =
        [["D", "A", "B", "C", "A"]] ∧
      "D" ∉ (["A", "B", "C", "A"] : List String) := by
  refine ⟨?_, by decide, by decide⟩
  intro g cyc hc
  rcases DependencyMapper.detectCycles_shape g cyc hc with ⟨l, m, hlm, hm⟩
  refine ⟨?_, l, m, hlm, hm⟩
  have hl : 0 < l.length := List.length_pos.mpr (by rintro rfl; cases hm)
  rw [hlm, List.length_append, List.length_singleton]
  omega

/-- C10 witness: the invariant applied to the reported `[D, A, B, C, A]` path
of the `D → A → B → C → A` graph. -/
theorem C10_cycle_shape_witness :
    2 ≤ (["D", "A", "B", "C", "A"] : List String).length ∧
      ∃ l m, (["D", "A", "B", "C", "A"] : List String) = l ++ [m] ∧ m ∈ l :=
  C10_cycle_shape.1 graphDABC ["D", "A", "B", "C", "A"] (by decide)

end Sensei
namespace Sensei

/-- C6: for a readable non-directory file with truthy inline content whose
lowercased extension has no registered parser, extraction returns — without
an error — exactly the symbols of the regex fallback extractor on that
content, on both the core-language and the secondary path. -/
theorem C6_fallback_extractor (o : ParserOracles) (fuel : Nat)
    (disk : String → Except String String) (file : ProcessedFile) (c : String)
    (hr : file.fileInfo.isReadable = true) (hd : file.isDirectory = false)
    (hc : file.content = some c) (hne : c ≠ "")
    (hp : getParser (lowerStr file.extension) = none) :
    SymbolExtractor.extractFromFileE o fuel disk file =
      .ok (SymbolExtractor.extractBasicSymbols c) := by
  unfold SymbolExtractor.extractFromFileE SymbolExtractor.extractCoreSymbols
    SymbolExtractor.extractSecondarySymbols
  rw [hp]
  simp [hr, hd, hc, hne, ite_self]

/-- C6 witness: the `.qqq` file with inline content, error-throwing parser
oracles and a failing disk. -/
theorem C6_fallback_extractor_witness :
    qqqFile.fileInfo.isReadable = true ∧ qqqFile.isDirectory = false ∧
      qqqFile.content = some "export function hello() {}" ∧
      ("export function hello() {}" : String) ≠ "" ∧
      getParser (lowerStr qqqFile.extension) = none ∧
      SymbolExtractor.extractFromFileE throwingOracles 0 failingDisk qqqFile =
        .ok (SymbolExtractor.extractBasicSymbols
          "export function hello() {}") := by
  have hq : getParser (lowerStr qqqFile.extension) = none := by
    rw [show lowerStr qqqFile.extension = "qqq" from by decide]
    exact getParser_qqq
  exact ⟨rfl, rfl, rfl, by decide, hq,
    C6_fallback_extractor throwingOracles 0 failingDisk qqqFile
      "export function hello() {}" rfl rfl rfl (by decide) hq⟩

end Sensei
namespace Sensei

theorem lookupA_mapSet_self {α β : Type} [DecidableEq α] :
    ∀ (m : List (α × β)) (k : α) (v : β), lookupA (mapSet m k v) k = some v := by
  intro m k v
  induction m with
  | nil => simp [mapSet, lookupA]
  | cons p t ih =>
    rcases p with ⟨k', v'⟩
    by_cases h : k' = k
    · subst h
      simp [mapSet, lookupA]
    · simp [mapSet, lookupA, h, ih]

theorem lookupA_mapSet_of_ne {α β : Type} [DecidableEq α] :
    ∀ (m : List (α × β)) (k q : α) (v : β), k ≠ q →
      lookupA (mapSet m k v) q = lookupA m q := by
  intro m k q v hkq
  induction m with
  | nil => simp [mapSet, lookupA, hkq]
  | cons p t ih =>
    rcases p with ⟨k', v'⟩
    by_cases h : k' = k
    · subst h
      simp [mapSet, lookupA, hkq]
    · simp [mapSet, lookupA, h, ih]

theorem lookupA_foldl_mapSet_of_not_mem {α β γ : Type} [DecidableEq α]
    (h : α × γ → β) :
    ∀ (rs : List (α × γ)) (m : List (α × β)) (q : α),
      q ∉ rs.map Prod.fst →
      lookupA (rs.foldl (fun m e => mapSet m e.1 (h e)) m) q = lookupA m q := by
  intro rs
  induction rs with
  | nil => intro m q _; rfl
  | cons e t ih =>
    intro m q hq
    rw [List.foldl_cons]
    rw [ih _ q (fun hmem => hq (List.mem_cons_of_mem _ hmem))]
    refine lookupA_mapSet_of_ne m e.1 q (h e) ?_
    intro he
    refine hq ?_
    rw [← he]
    exact List.mem_cons_self _ _

theorem lookupA_foldl_mapSet_of_mem {α β γ : Type} [DecidableEq α]
    (h : α × γ → β) :
    ∀ (rs : List (α × γ)) (m : List (α × β)) (k : α) (x : γ),
      (k, x) ∈ rs → (rs.map Prod.fst).Nodup →
      lookupA (rs.foldl (fun m e => mapSet m e.1 (h e)) m) k =
        some (h (k, x)) := by
  intro rs
  induction rs with
  | nil => intro m k x hm _; cases hm
  | cons e t ih =>
    intro m k x hm hnd
    rw [List.foldl_cons]
    rcases List.mem_cons.mp hm with he | ht
    · subst he
      have hk : k ∉ t.map Prod.fst :=
        (List.nodup_cons.mp (by simpa using hnd)).1
      rw [lookupA_foldl_mapSet_of_not_mem h t _ k hk]
      exact lookupA_mapSet_self m k (h (k, x))
    · exact ih _ k x ht (List.nodup_cons.mp (by simpa using hnd)).2

theorem extractResults_keys (o : ParserOracles) (fuel : Nat)
    (disk : String → Except String String) (files : List ProcessedFile) :
    (SymbolExtractor.extractResults o fuel disk files).map Prod.fst =
      files.map fun g => g.path := by
  unfold SymbolExtractor.extractResults
  rw [List.map_map]
  rfl

theorem lookupA_extractSymbolsMap_of_mem (o : ParserOracles) (fuel : Nat)
    (disk : String → Except String String) (files : List ProcessedFile)
    (p : String) (x : Except String (List SymbolInfo))
    (hmem : (p, x) ∈ SymbolExtractor.extractResults o fuel disk files)
    (hnd : (files.map fun g => g.path).Nodup) :
    lookupA (SymbolExtractor.extractSymbolsMap o fuel disk files) p =
      some (match x with | .ok syms => syms | .error _ => []) := by
  unfold SymbolExtractor.extractSymbolsMap
  exact lookupA_foldl_mapSet_of_mem _ _ _ p x hmem
    (by rw [extractResults_keys]; exact hnd)

theorem filterMap_congr_mem {α β : Type} :
    ∀ (l : List α) (f g : α → Option β), (∀ a ∈ l, f a = g a) →
      l.filterMap f = l.filterMap g := by
  intro l
  induction l with
  | nil => intro f g _; rfl
  | cons a t ih =>
    intro f g h
    rw [List.filterMap_cons, List.filterMap_cons, h a (List.mem_cons_self a t),
      ih f g (fun b hb => h b (List.mem_cons_of_mem a hb))]

theorem filterMap_range_get {α β : Type} (H : α → Option β) :
    ∀ (rs : List α),
      (List.range rs.length).filterMap (fun i => (rs.get? i).bind H) =
        rs.filterMap H := by
  intro rs
  induction rs with
  | nil => rfl
  | cons a t ih =>
    rw [List.length_cons, List.range_succ_eq_map, List.filterMap_cons,
      List.filterMap_map]
    have hcomp : ((fun i => (((a :: t).get? i).bind H)) ∘ fun i => i + 1) =
        fun i => ((t.get? i).bind H) := by
      funext i
      rfl
    rw [hcomp, ih, List.filterMap_cons]
    rfl

theorem filterMap_some_eq {α : Type} : ∀ (l : List α), l.filterMap some = l := by
  intro l
  induction l with
  | nil => rfl
  | cons a t ih =>
    rw [List.filterMap_cons]
    simp [ih]

theorem find_completion (o : ParserOracles) (fuel : Nat)
    (disk : String → Except String String) (files : List ProcessedFile) :
    ∀ (sched : List Nat) (i : Nat)
      (r : String × Except String (List SymbolInfo)),
      i ∈ sched →
      (SymbolExtractor.extractResults o fuel disk files).get? i = some r →
      (SymbolExtractor.completionEvents o fuel disk files sched).find?
        (fun ev => ev.1 = i) = some (i, r) := by
  intro sched
  induction sched with
  | nil => intro i r hi _; cases hi
  | cons j t ih =>
    intro i r hi hr
    unfold SymbolExtractor.completionEvents
    by_cases hj : j = i
    · subst hj
      simp only [List.filterMap_cons, hr, Option.map_some']
      exact List.find?_cons_of_pos _ (by simp)
    · have hit : i ∈ t := by
        rcases List.mem_cons.mp hi with h | h
        · exact absurd h.symm hj
        · exact h
      cases hLj : (SymbolExtractor.extractResults o fuel disk files).get? j with
      | none =>
        simp only [List.filterMap_cons, hLj, Option.map_none']
        exact ih i r hit hr
      | some r' =>
        simp only [List.filterMap_cons, hLj, Option.map_some']
        rw [List.find?_cons_of_neg _ (by simp [hj])]
        exact ih i r hit hr

theorem extractResults_len (o : ParserOracles) (fuel : Nat)
    (disk : String → Except String String) (files : List ProcessedFile) :
    (SymbolExtractor.extractResults o fuel disk files).length = files.length := by
  unfold SymbolExtractor.extractResults
  exact List.length_map _ _

theorem settledResults_perm (o : ParserOracles) (fuel : Nat)
    (disk : String → Except String String) (files : List ProcessedFile)
    (sched : List Nat) (hs : sched.Perm (List.range files.length)) :
    SymbolExtractor.settledResults o fuel disk files sched =
      SymbolExtractor.extractResults o fuel disk files := by
  unfold SymbolExtractor.settledResults
  have hcongr : ∀ i ∈ List.range files.length,
      (((SymbolExtractor.completionEvents o fuel disk files sched).find?
          fun ev => ev.1 = i).map Prod.snd) =
        ((SymbolExtractor.extractResults o fuel disk files).get? i).bind some := by
    intro i hi
    have hilt : i < files.length := List.mem_range.mp hi
    have hisched : i ∈ sched := hs.mem_iff.mpr hi
    have hr := List.get?_eq_get
      (show i < (SymbolExtractor.extractResults o fuel disk files).length by
        rw [extractResults_len]; exact hilt)
    rw [hr, find_completion o fuel disk files sched i _ hisched hr]
    rfl
  rw [filterMap_congr_mem _ _ _ hcongr]
  rw [← extractResults_len o fuel disk files]
  rw [filterMap_range_get some (SymbolExtractor.extractResults o fuel disk files)]
  exact filterMap_some_eq _

theorem extractSymbolsMapSched_perm (o : ParserOracles) (fuel : Nat)
    (disk : String → Except String String) (files : List ProcessedFile)
    (sched : List Nat) (hs : sched.Perm (List.range files.length)) :
    SymbolExtractor.extractSymbolsMapSched o fuel disk files sched =
      SymbolExtractor.extractSymbolsMap o fuel disk files := by
  unfold SymbolExtractor.extractSymbolsMapSched SymbolExtractor.extractSymbolsMap
  rw [settledResults_perm o fuel disk files sched hs]

theorem filter_path_nil (o : ParserOracles) (fuel : Nat)
    (disk : String → Except String String) (q : String) :
    ∀ (t : List ProcessedFile), q ∉ t.map (fun g => g.path) →
      ((t.filterMap fun g =>
          match SymbolExtractor.extractFromFileE o fuel disk g with
          | .error e' => some (⟨g.path, e'⟩ : SymbolExtractor.ExtractError)
          | .ok _ => none).filter fun er => er.file = q) = [] := by
  intro t
  induction t with
  | nil => intro _; rfl
  | cons g t ih =>
    intro hq
    have hq2 : q ∉ t.map fun g => g.path :=
      fun h => hq (List.mem_cons_of_mem _ h)
    have hgq : g.path ≠ q := by
      intro h
      refine hq ?_
      rw [← h]
      exact List.mem_cons_self _ _
    cases hE : SymbolExtractor.extractFromFileE o fuel disk g with
    | ok syms => simp [List.filterMap_cons, hE, ih hq2]
    | error e' => simp [List.filterMap_cons, hE, List.filter_cons, hgq, ih hq2]

theorem filterMap_filter_one (o : ParserOracles) (fuel : Nat)
    (disk : String → Except String String) (f : ProcessedFile) (e : String) :
    ∀ (files : List ProcessedFile),
      (files.map fun g => g.path).Nodup → f ∈ files →
      SymbolExtractor.extractFromFileE o fuel disk f = .error e →
      ((files.filterMap fun g =>
          match SymbolExtractor.extractFromFileE o fuel disk g with
          | .error e' => some (⟨g.path, e'⟩ : SymbolExtractor.ExtractError)
          | .ok _ => none).filter fun er => er.file = f.path) =
        [⟨f.path, e⟩] := by
  intro files
  induction files with
  | nil => intro _ hf _; cases hf
  | cons g t ih =>
    intro hnd hf herr
    have hnd2 : (t.map fun g => g.path).Nodup :=
      (List.nodup_cons.mp (by simpa using hnd)).2
    have hgp : g.path ∉ t.map fun g => g.path :=
      (List.nodup_cons.mp (by simpa using hnd)).1
    rcases List.mem_cons.mp hf with hfg | hft
    · subst hfg
      simp [List.filterMap_cons, herr, List.filter_cons,
        filter_path_nil o fuel disk f.path t hgp]
    · have hgf : g.path ≠ f.path :=
        fun h => hgp (h ▸ List.mem_map_of_mem (fun g => g.path) hft)
      cases hE : SymbolExtractor.extractFromFileE o fuel disk g with
      | ok syms => simp [List.filterMap_cons, hE, ih hnd2 hft herr]
      | error e' =>
        simp [List.filterMap_cons, hE, List.filter_cons, hgf, ih hnd2 hft herr]

/-- C7: on a file list with distinct paths, one file whose extraction fails
with an error contributes exactly one `{file, error}` entry to the error list
(under every completion schedule), is mapped to the empty symbol list, and
every file whose extraction succeeds still receives its own symbol list — the
failure never aborts the run. -/
theorem C7_per_file_failure (o : ParserOracles) (fuel : Nat)
    (disk : String → Except String String) (files : List ProcessedFile)
    (f : ProcessedFile) (e : String)
    (hnd : (files.map fun g => g.path).Nodup) (hf : f ∈ files)
    (herr : SymbolExtractor.extractFromFileE o fuel disk f = .error e) :
    lookupA (SymbolExtractor.extractSymbolsMap o fuel disk files) f.path =
        some [] ∧
      (∀ sched : List Nat, sched.Perm (List.range files.length) →
        (SymbolExtractor.extractSymbolsErrors o fuel disk files sched).filter
          (fun er => er.file = f.path) = [⟨f.path, e⟩]) ∧
      ∀ g ∈ files, ∀ syms,
        SymbolExtractor.extractFromFileE o fuel disk g = .ok syms →
        lookupA (SymbolExtractor.extractSymbolsMap o fuel disk files) g.path =
          some syms := by
  refine ⟨?_, ?_, ?_⟩
  · have hmem : (f.path, Except.error e) ∈
        SymbolExtractor.extractResults o fuel disk files := by
      have h : (f.path, SymbolExtractor.extractFromFileE o fuel disk f) ∈
          files.map
            (fun g => (g.path, SymbolExtractor.extractFromFileE o fuel disk g)) :=
        List.mem_map_of_mem _ hf
      rw [herr] at h
      exact h
    exact lookupA_extractSymbolsMap_of_mem o fuel disk files f.path
      (Except.error e) hmem hnd
  · intro sched hs
    have hform : SymbolExtractor.extractSymbolsErrors o fuel disk files sched =
        sched.filterMap fun i =>
          ((SymbolExtractor.extractResults o fuel disk files).get? i).bind
            fun r =>
              match r.2 with
              | .error e' => some (⟨r.1, e'⟩ : SymbolExtractor.ExtractError)
              | .ok _ => none := by
      unfold SymbolExtractor.extractSymbolsErrors
      refine filterMap_congr_mem _ _ _ ?_
      intro i _
      cases hLi : (SymbolExtractor.extractResults o fuel disk files).get? i with
      | none => rfl
      | some r =>
        rcases r with ⟨p, q⟩
        cases q <;> rfl
    have hval : ((List.range files.length).filterMap fun i =>
          ((SymbolExtractor.extractResults o fuel disk files).get? i).bind
            fun r =>
              match r.2 with
              | .error e' => some (⟨r.1, e'⟩ : SymbolExtractor.ExtractError)
              | .ok _ => none) =
        files.filterMap fun g =>
          match SymbolExtractor.extractFromFileE o fuel disk g with
          | .error e' => some (⟨g.path, e'⟩ : SymbolExtractor.ExtractError)
          | .ok _ => none := by
      rw [← extractResults_len o fuel disk files, filterMap_range_get]
      unfold SymbolExtractor.extractResults
      rw [List.filterMap_map]
      rfl
    have hp1 : ((SymbolExtractor.extractSymbolsErrors o fuel disk files
          sched).filter fun er => er.file = f.path).Perm
        (((List.range files.length).filterMap fun i =>
          ((SymbolExtractor.extractResults o fuel disk files).get? i).bind
            fun r =>
              match r.2 with
              | .error e' => some (⟨r.1, e'⟩ : SymbolExtractor.ExtractError)
              | .ok _ => none).filter fun er => er.file = f.path) := by
      rw [hform]
      exact (hs.filterMap _).filter _
    rw [hval, filterMap_filter_one o fuel disk f e files hnd hf herr] at hp1
    exact List.perm_singleton.mp hp1
  · intro g hg syms hok
    have hmem : (g.path, Except.ok syms) ∈
        SymbolExtractor.extractResults o fuel disk files := by
      have h : (g.path, SymbolExtractor.extractFromFileE o fuel disk g) ∈
          files.map
            (fun g => (g.path, SymbolExtractor.extractFromFileE o fuel disk g)) :=
        List.mem_map_of_mem _ hg
      rw [hok] at h
      exact h
    exact lookupA_extractSymbolsMap_of_mem o fuel disk files g.path
      (Except.ok syms) hmem hnd

/-- C7 witness: of the two files, the one whose content must come from the
always-failing disk yields the single error entry and an empty list, while
the unreadable one still gets its (empty) list. -/
theorem C7_per_file_failure_witness :
    (([unreadableFile, noContentFile].map fun g => g.path).Nodup ∧
        noContentFile ∈ [unreadableFile, noContentFile] ∧
        SymbolExtractor.extractFromFileE throwingOracles 0 failingDisk
          noContentFile = .error "Failed to read file: ENOENT") ∧
      lookupA (SymbolExtractor.extractSymbolsMap throwingOracles 0 failingDisk
          [unreadableFile, noContentFile]) noContentFile.path = some [] ∧
      (∀ sched : List Nat,
        sched.Perm (List.range [unreadableFile, noContentFile].length) →
        (SymbolExtractor.extractSymbolsErrors throwingOracles 0 failingDisk
            [unreadableFile, noContentFile] sched).filter
          (fun er => er.file = noContentFile.path) =
          [⟨noContentFile.path, "Failed to read file: ENOENT"⟩]) ∧
      ∀ g ∈ [unreadableFile, noContentFile], ∀ syms,
        SymbolExtractor.extractFromFileE throwingOracles 0 failingDisk g =
          .ok syms →
        lookupA (SymbolExtractor.extractSymbolsMap throwingOracles 0 failingDisk
          [unreadableFile, noContentFile]) g.path = some syms :=
  ⟨⟨by decide, by decide, rfl⟩,
    C7_per_file_failure throwingOracles 0 failingDisk
      [unreadableFile, noContentFile] noContentFile
      "Failed to read file: ENOENT" (by decide) (by decide) rfl⟩

/-- C9: the merged file-to-symbols map of a run is the same under any two
completion schedules of the per-file tasks — rerunning extraction on identical
input yields the identical map. -/
theorem C9_schedule_independent (o : ParserOracles) (fuel : Nat)
    (disk : String → Except String String) (files : List ProcessedFile)
    (sched1 sched2 : List Nat)
    (h1 : sched1.Perm (List.range files.length))
    (h2 : sched2.Perm (List.range files.length)) :
    SymbolExtractor.extractSymbolsMapSched o fuel disk files sched1 =
      SymbolExtractor.extractSymbolsMapSched o fuel disk files sched2 := by
  rw [extractSymbolsMapSched_perm o fuel disk files sched1 h1,
    extractSymbolsMapSched_perm o fuel disk files sched2 h2]

/-- C9 witness: two opposite completion schedules over the same two files
produce the same map. -/
theorem C9_schedule_independent_witness :
    ([1, 0] : List Nat).Perm
        (List.range [unreadableFile, noContentFile].length) ∧
      ([0, 1] : List Nat).Perm
        (List.range [unreadableFile, noContentFile].length) ∧
      SymbolExtractor.extractSymbolsMapSched throwingOracles 0 failingDisk
          [unreadableFile, noContentFile] [1, 0] =
        SymbolExtractor.extractSymbolsMapSched throwingOracles 0 failingDisk
          [unreadableFile, noContentFile] [0, 1] :=
  ⟨by decide, by decide,
    C9_schedule_independent throwingOracles 0 failingDisk
      [unreadableFile, noContentFile] [1, 0] [0, 1] (by decide) (by decide)⟩

end Sensei
namespace Sensei

theorem extractSymbolFromNode_posWF (node : TreeNode)
    (q : SymbolExtractor.Quality) (s : SymbolInfo)
    (hok : treeNodeOk node = true)
    (hs : SymbolExtractor.extractSymbolFromNode node q = some s) :
    symbolPosWF s := by
  cases hn : SymbolExtractor.extractSymbolName node with
  | none =>
    simp only [SymbolExtractor.extractSymbolFromNode, hn] at hs
    exact Option.noConfusion hs
  | some nm =>
    simp only [SymbolExtractor.extractSymbolFromNode, hn] at hs
    by_cases hnm : nm = ""
    · rw [if_pos hnm] at hs
      cases hs
    · rw [if_neg hnm] at hs
      obtain rfl := (Option.some.inj hs).symm
      cases hsp : node.startPosition with
      | none =>
        cases hep : node.endPosition with
        | none => simp [symbolPosWF]
        | some qp => simp [symbolPosWF]
      | some p =>
        cases hep : node.endPosition with
        | none => simp [symbolPosWF]
        | some qp =>
          simp only [treeNodeOk, hsp, hep] at hok
          rw [decide_eq_true_eq] at hok
          by_cases hq : qp.column = 0 <;>
            simp [symbolPosWF, hq] <;> omega

theorem extractSymbolFromBabelNode_posWF (node : BabelNode)
    (q : SymbolExtractor.Quality) (s : SymbolInfo)
    (hok : babelNodeOk node = true)
    (hs : SymbolExtractor.extractSymbolFromBabelNode node q = some s) :
    symbolPosWF s := by
  cases hn : SymbolExtractor.extractSymbolNameBabel node with
  | none =>
    simp only [SymbolExtractor.extractSymbolFromBabelNode, hn] at hs
    exact Option.noConfusion hs
  | some nm =>
    simp only [SymbolExtractor.extractSymbolFromBabelNode, hn] at hs
    by_cases hnm : nm = ""
    · rw [if_pos hnm] at hs
      cases hs
    · rw [if_neg hnm] at hs
      obtain rfl := (Option.some.inj hs).symm
      cases hloc : node.loc with
      | none => simp [symbolPosWF]
      | some L =>
        simp only [babelNodeOk, hloc] at hok
        rw [decide_eq_true_eq] at hok
        by_cases hsl : L.startLine = 0 <;> by_cases hel : L.endLine = 0 <;>
          by_cases hec : L.endColumn = 0 <;>
          simp [symbolPosWF, hsl, hel, hec] <;> omega

theorem extractSymbolFromTypeScriptNode_posWF (lineChar : Nat → Nat × Nat)
    (node : TsNode) (q : SymbolExtractor.Quality) (s : SymbolInfo)
    (hmono : lineCharMono lineChar) (hok : tsNodeOk node = true)
    (hs : SymbolExtractor.extractSymbolFromTypeScriptNode lineChar node q =
      some s) :
    symbolPosWF s := by
  cases hn : SymbolExtractor.extractTypeScriptSymbolName node with
  | none =>
    simp only [SymbolExtractor.extractSymbolFromTypeScriptNode, hn] at hs
    exact Option.noConfusion hs
  | some nm =>
    simp only [SymbolExtractor.extractSymbolFromTypeScriptNode, hn] at hs
    by_cases hnm : nm = ""
    · rw [if_pos hnm] at hs
      cases hs
    · rw [if_neg hnm] at hs
      obtain rfl := (Option.some.inj hs).symm
      simp only [tsNodeOk] at hok
      rw [decide_eq_true_eq] at hok
      have hm := hmono node.startPos node.endPos hok
      by_cases hsf : node.hasSourceFile = true <;>
        simp [symbolPosWF, hsf] <;> omega

theorem traverseAST_posWF (q : SymbolExtractor.Quality) :
    ∀ (fuel : Nat) (node : TreeNode), treeWF fuel node = true →
      ∀ s ∈ SymbolExtractor.traverseAST q fuel node, symbolPosWF s := by
  intro fuel
  induction fuel with
  | zero => intro node _ s hs; cases hs
  | succ fuel ih =>
    intro node hwf s hs
    simp only [SymbolExtractor.traverseAST] at hs
    simp only [treeWF, Bool.and_eq_true] at hwf
    have h1 := hwf
    rcases List.mem_append.mp hs with h0 | hflat
    · cases he : SymbolExtractor.extractSymbolFromNode node q with
      | none => rw [he] at h0; cases h0
      | some s' =>
        rw [he] at h0
        have hss : s = s' := by simpa using h0
        subst hss
        exact extractSymbolFromNode_posWF node q s h1.1 he
    · rcases List.mem_flatten.mp hflat with ⟨l, hl, hsl⟩
      rcases List.mem_map.mp hl with ⟨c, hc, rfl⟩
      exact ih c ((List.all_eq_true.mp h1.2) c hc) s hsl

theorem traverseBabelAST_posWF (q : SymbolExtractor.Quality) :
    ∀ (fuel : Nat) (node : BabelNode), babelWF fuel node = true →
      ∀ s ∈ SymbolExtractor.traverseBabelAST q fuel node, symbolPosWF s := by
  intro fuel
  induction fuel with
  | zero => intro node _ s hs; cases hs
  | succ fuel ih =>
    intro node hwf s hs
    simp only [SymbolExtractor.traverseBabelAST] at hs
    simp only [babelWF, Bool.and_eq_true] at hwf
    have h10 := hwf
    have h9 := h10.1
    have h8 := h9.1
    have h7 := h8.1
    have h6 := h7.1
    have h5 := h6.1
    have h4 := h5.1
    have h3 := h4.1
    have h2 := h3.1
    have h1 := h2.1
    rcases List.mem_append.mp hs with hs | hmem
    rcases List.mem_append.mp hs with hs | hmemL
    rcases List.mem_append.mp hs with hs | hmemT
    rcases List.mem_append.mp hs with hs | hmemA
    rcases List.mem_append.mp hs with hs | hmemC
    rcases List.mem_append.mp hs with hs | hmemE
    rcases List.mem_append.mp hs with hs | hmemPr
    rcases List.mem_append.mp hs with hs | hmemPa
    rcases List.mem_append.mp hs with hs | hmemD
    rcases List.mem_append.mp hs with h0 | hmemB
    · cases he : SymbolExtractor.extractSymbolFromBabelNode node q with
      | none => rw [he] at h0; cases h0
      | some s' =>
        rw [he] at h0
        have hss : s = s' := by simpa using h0
        subst hss
        exact extractSymbolFromBabelNode_posWF node q s h1.1 he
    · cases hb : node.body with
      | none => rw [hb] at hmemB; cases hmemB
      | some cs =>
        rw [hb] at hmemB
        rcases List.mem_flatten.mp hmemB with ⟨l, hl, hsl⟩
        rcases List.mem_map.mp hl with ⟨c, hc, rfl⟩
        have hB := h1.2
        rw [hb] at hB
        exact ih c ((List.all_eq_true.mp hB) c hc) s hsl
    · cases hb : node.declarations with
      | none => rw [hb] at hmemD; cases hmemD
      | some cs =>
        rw [hb] at hmemD
        rcases List.mem_flatten.mp hmemD with ⟨l, hl, hsl⟩
        rcases List.mem_map.mp hl with ⟨c, hc, rfl⟩
        have hB := h2.2
        rw [hb] at hB
        exact ih c ((List.all_eq_true.mp hB) c hc) s hsl
    · cases hb : node.params with
      | none => rw [hb] at hmemPa; cases hmemPa
      | some cs =>
        rw [hb] at hmemPa
        rcases List.mem_flatten.mp hmemPa with ⟨l, hl, hsl⟩
        rcases List.mem_map.mp hl with ⟨c, hc, rfl⟩
        have hB := h3.2
        rw [hb] at hB
        exact ih c ((List.all_eq_true.mp hB) c hc) s hsl
    · cases hb : node.properties with
      | none => rw [hb] at hmemPr; cases hmemPr
      | some cs =>
        rw [hb] at hmemPr
        rcases List.mem_flatten.mp hmemPr with ⟨l, hl, hsl⟩
        rcases List.mem_map.mp hl with ⟨c, hc, rfl⟩
        have hB := h4.2
        rw [hb] at hB
        exact ih c ((List.all_eq_true.mp hB) c hc) s hsl
    · cases hb : node.elements with
      | none => rw [hb] at hmemE; cases hmemE
      | some cs =>
        rw [hb] at hmemE
        rcases List.mem_flatten.mp hmemE with ⟨l, hl, hsl⟩
        rcases List.mem_map.mp hl with ⟨c, hc, rfl⟩
        have hB := h5.2
        rw [hb] at hB
        exact ih c ((List.all_eq_true.mp hB) c hc) s hsl
    · cases hb : node.consequent with
      | none => rw [hb] at hmemC; cases hmemC
      | some c =>
        rw [hb] at hmemC
        have hB := h6.2
        rw [hb] at hB
        exact ih c hB s hmemC
    · cases hb : node.alternate with
      | none => rw [hb] at hmemA; cases hmemA
      | some c =>
        rw [hb] at hmemA
        have hB := h7.2
        rw [hb] at hB
        exact ih c hB s hmemA
    · cases hb : node.test with
      | none => rw [hb] at hmemT; cases hmemT
      | some c =>
        rw [hb] at hmemT
        have hB := h8.2
        rw [hb] at hB
        exact ih c hB s hmemT
    · cases hb : node.left with
      | none => rw [hb] at hmemL; cases hmemL
      | some c =>
        rw [hb] at hmemL
        have hB := h9.2
        rw [hb] at hB
        exact ih c hB s hmemL
    · cases hb : node.right with
      | none => rw [hb] at hmem; cases hmem
      | some c =>
        rw [hb] at hmem
        have hB := h10.2
        rw [hb] at hB
        exact ih c hB s hmem

theorem traverseTypeScriptAST_posWF (lineChar : Nat → Nat × Nat)
    (q : SymbolExtractor.Quality) (hmono : lineCharMono lineChar) :
    ∀ (fuel : Nat) (node : TsNode), tsWF fuel node = true →
      ∀ s ∈ SymbolExtractor.traverseTypeScriptAST lineChar q fuel node,
        symbolPosWF s := by
  intro fuel
  induction fuel with
  | zero => intro node _ s hs; cases hs
  | succ fuel ih =>
    intro node hwf s hs
    simp only [SymbolExtractor.traverseTypeScriptAST] at hs
    simp only [tsWF, Bool.and_eq_true] at hwf
    have h2 := hwf
    have h1 := hwf.1
    rcases List.mem_append.mp hs with hs | hmemS
    rcases List.mem_append.mp hs with h0 | hmemC
    · cases he : SymbolExtractor.extractSymbolFromTypeScriptNode lineChar
          node q with
      | none => rw [he] at h0; cases h0
      | some s' =>
        rw [he] at h0
        have hss : s = s' := by simpa using h0
        subst hss
        exact extractSymbolFromTypeScriptNode_posWF lineChar node q s hmono
          h1.1 he
    · rcases List.mem_flatten.mp hmemC with ⟨l, hl, hsl⟩
      rcases List.mem_map.mp hl with ⟨c, hc, rfl⟩
      exact ih c ((List.all_eq_true.mp h1.2) c hc) s hsl
    · cases hb : node.statements with
      | none => rw [hb] at hmemS; cases hmemS
      | some sts =>
        rw [hb] at hmemS
        rcases List.mem_flatten.mp hmemS with ⟨l, hl, hsl⟩
        rcases List.mem_map.mp hl with ⟨c, hc, rfl⟩
        have hB := h2.2
        rw [hb] at hB
        exact ih c ((List.all_eq_true.mp hB) c hc) s hsl

/-- C8: on well-formed parsed trees (each node's own start not after its end,
and — for TypeScript — a monotone offset-to-position conversion), every
symbol emitted by any of the three AST walkers satisfies
`lineStart ≤ lineEnd`, with `columnStart ≤ columnEnd` on a single line. -/
theorem C8_positions_wf :
    (∀ (q : SymbolExtractor.Quality) (fuel : Nat) (root : TreeNode),
        treeWF fuel root = true →
        ∀ s ∈ SymbolExtractor.traverseAST q fuel root, symbolPosWF s) ∧
      (∀ (q : SymbolExtractor.Quality) (fuel : Nat) (root : BabelNode),
        babelWF fuel root = true →
        ∀ s ∈ SymbolExtractor.traverseBabelAST q fuel root, symbolPosWF s) ∧
      ∀ (lineChar : Nat → Nat × Nat) (q : SymbolExtractor.Quality)
        (fuel : Nat) (root : TsNode),
        lineCharMono lineChar → tsWF fuel root = true →
        ∀ s ∈ SymbolExtractor.traverseTypeScriptAST lineChar q fuel root,
          symbolPosWF s :=
  ⟨fun q fuel root h => traverseAST_posWF q fuel root h,
    fun q fuel root h => traverseBabelAST_posWF q fuel root h,
    fun lineChar q fuel root hm h =>
      traverseTypeScriptAST_posWF lineChar q hm fuel root h⟩

/-- C8 witness: one-node trees for each of the three walkers. -/
theorem C8_positions_wf_witness :
    treeWF 1 wTreeNode = true ∧ babelWF 1 wBabelNode = true ∧
      tsWF 1 wTsNode = true ∧ lineCharMono (fun o => (o, 0)) ∧
      (∀ s ∈ SymbolExtractor.traverseAST .core 1 wTreeNode, symbolPosWF s) ∧
      (∀ s ∈ SymbolExtractor.traverseBabelAST .core 1 wBabelNode,
        symbolPosWF s) ∧
      ∀ s ∈ SymbolExtractor.traverseTypeScriptAST (fun o => (o, 0)) .core 1
          wTsNode, symbolPosWF s :=
  ⟨by decide, by decide, by decide,
    fun a b hab => by
      show a < b ∨ (a = b ∧ (0 : Nat) ≤ 0)
      omega,
    C8_positions_wf.1 .core 1 wTreeNode (by decide),
    C8_positions_wf.2.1 .core 1 wBabelNode (by decide),
    C8_positions_wf.2.2 (fun o => (o, 0)) .core 1 wTsNode
      (fun a b hab => by
        show a < b ∨ (a = b ∧ (0 : Nat) ≤ 0)
        omega)
      (by decide)⟩

end Sensei
namespace Sensei

theorem basicAnalysis_scenario (s : SymbolInfo) (content : String)
    (hname : s.name = "foo") :
    DependencyMapper.findDependenciesWithBasicAnalysis s content
      scenarioSymbolMap = [] := by
  unfold DependencyMapper.findDependenciesWithBasicAnalysis
  by_cases h : DependencyMapper.wordBoundedMatch content s.name = true
  · rw [if_pos h, hname]
    rfl
  · rw [if_neg h]

theorem treeSitter_none (o : ParserOracles) (fuel : Nat) (s : SymbolInfo)
    (selfId : String × Nat) (content : String)
    (M : List (String × List SymbolInfo))
    (hg : getParser (lowerStr (splitPop s.name '.')) = none) :
    DependencyMapper.findDependenciesWithTreeSitter o fuel s selfId content
      M = DependencyMapper.findDependenciesWithBasicAnalysis s content M := by
  unfold DependencyMapper.findDependenciesWithTreeSitter
  generalize hG : getParser = G
  rw [hG] at hg
  simp only [hg]

theorem treeSitter_scenario (o : ParserOracles) (fuel : Nat) (s : SymbolInfo)
    (selfId : String × Nat) (content : String) (hname : s.name = "foo") :
    DependencyMapper.findDependenciesWithTreeSitter o fuel s selfId content
      scenarioSymbolMap = [] := by
  have hg : getParser (lowerStr (splitPop s.name '.')) = none := by
    rw [hname, show lowerStr (splitPop "foo" '.') = "foo" from rfl]
    exact getParser_foo
  rw [treeSitter_none o fuel s selfId content scenarioSymbolMap hg]
  exact basicAnalysis_scenario s content hname

theorem findSymbolDeps_scenario (o : ParserOracles) (fuel : Nat)
    (disk : String → Except String String) (s : SymbolInfo)
    (selfId : String × Nat) (p : String) (hname : s.name = "foo")
    (hp : lowerStr (splitPop p '.') = "ts") :
    DependencyMapper.findSymbolDependencies o fuel disk s selfId p
      scenarioSymbolMap = [] := by
  unfold DependencyMapper.findSymbolDependencies
  cases hd : disk p with
  | error e => rfl
  | ok content =>
    simp only [hp]
    rw [if_pos (show isCoreLanguage "ts" = true from rfl)]
    exact treeSitter_scenario o fuel s selfId content hname

theorem mapGraph_scenario (o : ParserOracles) (fuel : Nat)
    (disk : String → Except String String) :
    (DependencyMapper.mapDependenciesGraph o fuel disk
      scenarioSymbolMap).edges = [] := by
  have hA := findSymbolDeps_scenario o fuel disk fooFnSymbol ("a.ts", 0)
    "a.ts" rfl rfl
  have hB := findSymbolDeps_scenario o fuel disk fooImportSymbol ("b.ts", 0)
    "b.ts" rfl rfl
  have he1 : ([fooFnSymbol] : List SymbolInfo).enum = [(0, fooFnSymbol)] := rfl
  have he2 : ([fooImportSymbol] : List SymbolInfo).enum =
    [(0, fooImportSymbol)] := rfl
  unfold DependencyMapper.mapDependenciesGraph
  simp only [scenarioSymbolMap] at hA hB ⊢
  simp [List.foldl_cons, List.foldl_nil, he1, he2, hA, hB]

/-- C1 (refuting part (3) of the scenario): granting the scenario's parts (1)
and (2) — the symbol map holding exactly the exported `function` symbol `foo`
in `a.ts` and the `foo` `import` symbol in `b.ts` — the dependency mapper
emits no edge at all, for every parser oracle set, every disk content and
every walk depth; in particular no `usage` edge from a `b.ts` symbol to
`a.ts:foo` ever exists.  The tree-sitter tier is unreachable (the parser is
looked up under the extension of the symbol NAME, `foo`), and the basic tier
only links symbols whose name strictly contains the probed name with unequal
names, which is impossible when both symbols are named `foo`. -/
theorem C1_no_usage_edge (o : ParserOracles) (fuel : Nat)
    (disk : String → Except String String) :
    (DependencyMapper.mapDependencies o fuel disk
        scenarioSymbolMap).graph.edges = [] ∧
      (DependencyMapper.mapDependencies o fuel disk
        scenarioSymbolMap).totalDependencies = 0 := by
  have h := mapGraph_scenario o fuel disk
  unfold DependencyMapper.mapDependencies
  constructor
  · simpa using h
  · simp [h]

end Sensei
